import Mathlib

/-!
Verification of the contract-enforcement core of the interview-preparation
pipeline: structured-output recovery, Stage 3 count/shape repair, Stage 2
company/role resolution, candidate-contact extraction and CLI round parsing.
All definitions are shallow embeddings of the corresponding Python functions.
-/

set_option maxRecDepth 4096

namespace InterviewPrep

/-! ## Python string basics -/

/-- Whitespace characters recognised by Python `str.strip` / regex `\s`
(ASCII fragment). -/
def isPyWs (c : Char) : Bool :=
  c = ' ' || c = '\t' || c = '\n' || c = '\r' || c = '\x0b' || c = '\x0c'

/-- Drop leading whitespace (Python `lstrip`). -/
def stripStart (cs : List Char) : List Char := cs.dropWhile isPyWs

/-- Drop trailing whitespace (Python `rstrip`). -/
def stripEnd (cs : List Char) : List Char :=
  (cs.reverse.dropWhile isPyWs).reverse

/-- Python `str.strip` on a character list. -/
def pyStripL (cs : List Char) : List Char := stripEnd (stripStart cs)

/-- Python `str.strip` on a string. -/
def pyStrip (s : String) : String := ⟨pyStripL s.data⟩

/-- ASCII lower-casing, the fragment of Python `str.lower` the code relies on. -/
def asciiLowerChar (c : Char) : Char :=
  if 'A' ≤ c ∧ c ≤ 'Z' then Char.ofNat (c.toNat + 32) else c

/-- Python `str.lower` (ASCII fragment). -/
def pyLower (s : String) : String := ⟨s.data.map asciiLowerChar⟩

/-- Split a character list on every occurrence of a separator character,
keeping empty fields (Python `str.split(sep)` with a one-character `sep`). -/
def splitOnChar (sep : Char) (cs : List Char) : List (List Char) :=
  cs.foldr
    (fun c acc =>
      if c = sep then [] :: acc
      else
        match acc with
        | g :: gs => (c :: g) :: gs
        | [] => [[c]])
    [[]]

/-- Python `str.splitlines`: split on `\n`, `\r` and `\r\n`, with no trailing
empty line for a terminal line break and `[]` for the empty string. -/
def pySplitlines (cs : List Char) : List (List Char) :=
  if cs.isEmpty then [] else go cs []
where
  go : List Char → List Char → List (List Char)
    | [], cur => [cur.reverse]
    | '\r' :: '\n' :: rest, cur =>
        cur.reverse :: (if rest.isEmpty then [] else go rest [])
    | '\r' :: rest, cur =>
        cur.reverse :: (if rest.isEmpty then [] else go rest [])
    | '\n' :: rest, cur =>
        cur.reverse :: (if rest.isEmpty then [] else go rest [])
    | c :: rest, cur => go rest (c :: cur)

/-! ## JSON-like dynamic values

The Python code manipulates `json.loads` output: `None`, booleans, numbers,
strings, lists and dicts.  Integral numbers are kept exactly; non-integral
number literals (and the `Infinity`/`NaN` constants Python's parser accepts)
are carried as their raw lexeme. -/

inductive J where
  | null : J
  | bool (b : Bool) : J
  | num (n : Int) : J
  | numRaw (lit : String) : J
  | str (s : String) : J
  | arr (xs : List J) : J
  | obj (kvs : List (String × J)) : J

mutual

/-- Structural equality test on dynamic values. -/
def beqJ : J → J → Bool
  | .null, .null => true
  | .bool a, .bool b => a = b
  | .num a, .num b => a = b
  | .numRaw a, .numRaw b => a = b
  | .str a, .str b => a = b
  | .arr a, .arr b => beqJList a b
  | .obj a, .obj b => beqJKvs a b
  | _, _ => false

def beqJList : List J → List J → Bool
  | [], [] => true
  | a :: as, b :: bs => beqJ a b && beqJList as bs
  | _, _ => false

def beqJKvs : List (String × J) → List (String × J) → Bool
  | [], [] => true
  | (k, v) :: as, (k', v') :: bs => k = k' && beqJ v v' && beqJKvs as bs
  | _, _ => false

end


abbrev Dict := List (String × J)

/-- Python dict lookup `d.get(k)` (first binding wins; parsed objects keep
one binding per key). -/
def dget (d : Dict) (k : String) : Option J :=
  match d with
  | [] => none
  | (k', v) :: rest => if k' = k then some v else dget rest k

/-- Python dict assignment `d[k] = v`: replace in place if the key exists,
else append (insertion order preserved). -/
def dset (d : Dict) (k : String) (v : J) : Dict :=
  match d with
  | [] => [(k, v)]
  | (k', v') :: rest =>
      if k' = k then (k', v) :: rest else (k', v') :: dset rest k v

/-- Python `d.setdefault(k, v)`. -/
def dsetd (d : Dict) (k : String) (v : J) : Dict :=
  match dget d k with
  | some _ => d
  | none => d ++ [(k, v)]

/-- Python truthiness of a JSON value. -/
def truthyJ : J → Bool
  | .null => false
  | .bool b => b
  | .num n => n ≠ 0
  | .numRaw lit => lit.data.any fun c => '1' ≤ c ∧ c ≤ '9'
  | .str s => s ≠ ""
  | .arr xs => !xs.isEmpty
  | .obj kvs => !kvs.isEmpty

/-- Python truthiness of an optional value (`None` is falsy). -/
def truthyOpt : Option J → Bool
  | none => false
  | some v => truthyJ v

/-- Python truthiness of an optional string. -/
def truthyS : Option String → Bool
  | none => false
  | some s => s ≠ ""

/-! ## A model of `json.loads`

Executable recursive-descent parser for the JSON fragment accepted by
Python's `json.loads`: objects, arrays, strings with escapes, numbers
(plus the `NaN`/`Infinity` constants), `true`/`false`/`null`. -/

/-- JSON whitespace accepted between tokens by `json.loads`. -/
def isJsonWs (c : Char) : Bool :=
  c = ' ' || c = '\t' || c = '\n' || c = '\r'

def skipWs (cs : List Char) : List Char := cs.dropWhile isJsonWs

def isDigitCh (c : Char) : Bool := '0' ≤ c && c ≤ '9'

def hexVal (c : Char) : Option Nat :=
  if '0' ≤ c ∧ c ≤ '9' then some (c.toNat - '0'.toNat)
  else if 'a' ≤ c ∧ c ≤ 'f' then some (c.toNat - 'a'.toNat + 10)
  else if 'A' ≤ c ∧ c ≤ 'F' then some (c.toNat - 'A'.toNat + 10)
  else none

/-- Lex a JSON string body (after the opening quote), handling escapes. -/
def jStringGo : List Char → List Char → Option (String × List Char)
  | [], _ => none
  | '"' :: rest, acc => some (⟨acc.reverse⟩, rest)
  | '\\' :: e :: rest, acc =>
      if e = '"' then jStringGo rest ('"' :: acc)
      else if e = '\\' then jStringGo rest ('\\' :: acc)
      else if e = '/' then jStringGo rest ('/' :: acc)
      else if e = 'b' then jStringGo rest ('\x08' :: acc)
      else if e = 'f' then jStringGo rest ('\x0c' :: acc)
      else if e = 'n' then jStringGo rest ('\n' :: acc)
      else if e = 'r' then jStringGo rest ('\r' :: acc)
      else if e = 't' then jStringGo rest ('\t' :: acc)
      else if e = 'u' then
        match rest with
        | a :: b :: c :: d :: rest' =>
            match hexVal a, hexVal b, hexVal c, hexVal d with
            | some ha, some hb, some hc, some hd =>
                let n := ((ha * 16 + hb) * 16 + hc) * 16 + hd
                jStringGo rest' (Char.ofNat n :: acc)
            | _, _, _, _ => none
        | _ => none
      else none
  | c :: rest, acc =>
      if c.toNat < 0x20 then none else jStringGo rest (c :: acc)

def natOfDigits (ds : List Char) : Nat :=
  ds.foldl (fun n c => n * 10 + (c.toNat - '0'.toNat)) 0

/-- Optional exponent part of a JSON number; `none` when an `e` is present
but malformed (which makes the surrounding parse fail, as in Python). -/
def jExpPart (cs : List Char) : Option (List Char × List Char) :=
  match cs with
  | c :: r =>
      if c = 'e' ∨ c = 'E' then
        let (sgn, r1) :=
          match r with
          | s :: r' => if s = '+' ∨ s = '-' then ([s], r') else (([] : List Char), r)
          | [] => ([], [])
        let (es, r2) := r1.span isDigitCh
        if es.isEmpty then none else some (c :: (sgn ++ es), r2)
      else some ([], cs)
  | [] => some ([], [])

/-- Digits/fraction/exponent of a JSON number after an optional sign:
returns the lexeme, whether it is integral, its integer value and the rest. -/
def jNumCore (cs : List Char) : Option (List Char × Bool × Nat × List Char) :=
  let (ds, r1) := cs.span isDigitCh
  if ds.isEmpty then none
  else if ds.head? = some '0' ∧ ds.length ≠ 1 then none
  else
    let n := natOfDigits ds
    match r1 with
    | '.' :: r2 =>
        let (fs, r3) := r2.span isDigitCh
        if fs.isEmpty then none
        else
          match jExpPart r3 with
          | none => none
          | some (es, r4) => some (ds ++ '.' :: (fs ++ es), false, n, r4)
    | _ =>
        match jExpPart r1 with
        | none => none
        | some ([], r4) => some (ds, true, n, r4)
        | some (es, r4) => some (ds ++ es, false, n, r4)

def jNumber (cs : List Char) : Option (J × List Char) :=
  match cs with
  | '-' :: r =>
      match jNumCore r with
      | some (lex, isInt, n, rest) =>
          if isInt then some (J.num (-(n : Int)), rest)
          else some (J.numRaw ⟨'-' :: lex⟩, rest)
      | none => none
  | _ =>
      match jNumCore cs with
      | some (lex, isInt, n, rest) =>
          if isInt then some (J.num (n : Int), rest)
          else some (J.numRaw ⟨lex⟩, rest)
      | none => none

mutual

def jVal : Nat → List Char → Option (J × List Char)
  | 0, _ => none
  | fuel + 1, cs =>
      match cs with
      | [] => none
      | '{' :: rest =>
          (match skipWs rest with
           | '}' :: r2 => some (J.obj [], r2)
           | r1 => (jMembers fuel r1 []).map fun p => (J.obj p.1, p.2))
      | '[' :: rest =>
          (match skipWs rest with
           | ']' :: r2 => some (J.arr [], r2)
           | r1 => (jItems fuel r1 []).map fun p => (J.arr p.1, p.2))
      | '"' :: rest => (jStringGo rest []).map fun p => (J.str p.1, p.2)
      | c :: _ =>
          if cs.take 4 = "true".data then some (J.bool true, cs.drop 4)
          else if cs.take 5 = "false".data then some (J.bool false, cs.drop 5)
          else if cs.take 4 = "null".data then some (J.null, cs.drop 4)
          else if cs.take 3 = "NaN".data then some (J.numRaw "NaN", cs.drop 3)
          else if cs.take 8 = "Infinity".data then some (J.numRaw "Infinity", cs.drop 8)
          else if cs.take 9 = "-Infinity".data then some (J.numRaw "-Infinity", cs.drop 9)
          else if c = '-' ∨ isDigitCh c then jNumber cs
          else none

def jMembers : Nat → List Char → Dict → Option (Dict × List Char)
  | 0, _, _ => none
  | fuel + 1, cs, acc =>
      match cs with
      | '"' :: rest =>
          (match jStringGo rest [] with
           | some (k, r1) =>
               (match skipWs r1 with
                | ':' :: r2 =>
                    (match jVal fuel (skipWs r2) with
                     | some (v, r3) =>
                         let acc' := dset acc k v
                         (match skipWs r3 with
                          | ',' :: r4 => jMembers fuel (skipWs r4) acc'
                          | '}' :: r4 => some (acc', r4)
                          | _ => none)
                     | none => none)
                | _ => none)
           | none => none)
      | _ => none

def jItems : Nat → List Char → List J → Option (List J × List Char)
  | 0, _, _ => none
  | fuel + 1, cs, acc =>
      match jVal fuel cs with
      | some (v, r1) =>
          (match skipWs r1 with
           | ',' :: r2 => jItems fuel (skipWs r2) (acc ++ [v])
           | ']' :: r2 => some (acc ++ [v], r2)
           | _ => none)
      | none => none

end

/-- Model of Python `json.loads`: parse one JSON value surrounded by
optional whitespace; any trailing data is an error. -/
def jsonParse (s : String) : Option J :=
  match jVal (2 * s.data.length + 8) (skipWs s.data) with
  | some (v, rest) => if (skipWs rest).isEmpty then some v else none
  | none => none

/-! ## Structured-output recovery

Models of `strip_code_fences` and the two `extract_json_object` variants
(`agent_1_parser.py` / `agent_2_researcher.py` on one hand, `agent_3_qa_gen.py`
on the other), including the behaviour of the regexes they use. -/

/-- `l` ends with `suffix`. -/
def listEndsWith (suffix l : List Char) : Bool :=
  suffix.length ≤ l.length && l.drop (l.length - suffix.length) = suffix

/-- Case-insensitive literal match at the head of `cs`. -/
def startsWithCI (pat cs : List Char) : Bool :=
  (cs.take pat.length).map asciiLowerChar = pat

/-- `strip_code_fences`: strip, remove a leading `\x60\x60\x60json` /
`\x60\x60\x60` fence, remove a trailing `\x60\x60\x60` fence, strip again
(model of the two anchored `re.sub` calls). -/
def stripCodeFences (s : String) : String :=
  if s = "" then ""
  else
    let t := pyStripL s.data
    let t1 :=
      if t.take 3 = "```".data then
        let r := t.drop 3
        let r := if (r.take 4).map asciiLowerChar = "json".data then r.drop 4 else r
        r.dropWhile isPyWs
      else t
    let t2 :=
      if listEndsWith "```".data t1 then stripEnd (t1.take (t1.length - 3)) else t1
    ⟨pyStripL t2⟩

/-- Index of the last occurrence of `c` in `cs`. -/
def lastIdxOf (cs : List Char) (c : Char) : Option Nat :=
  match cs.reverse.findIdx? (· = c) with
  | some k => some (cs.length - 1 - k)
  | none => none

/-- Behaviour of `re.search(r"(\\\x7b.*\\\x7d)", cs, re.DOTALL)`: the greedy
group runs from the first `\x7b` to the last `\x7d` and matches exactly when the
first `\x7b` precedes the last `\x7d`. -/
def braceBlock (cs : List Char) : Option (List Char) :=
  match cs.findIdx? (· = '{'), lastIdxOf cs '}' with
  | some i, some j => if i < j then some ((cs.drop i).take (j - i + 1)) else none
  | _, _ => none

/-- `extract_json_object` as defined in `agent_1_parser.py` (and, up to an
inconsequential `strip` of the brace candidate, in `agent_2_researcher.py`). -/
def extractJsonObjectA1 (text : String) : Option J :=
  if text = "" then none
  else
    let cleaned := stripCodeFences text
    match jsonParse cleaned with
    | some v => some v
    | none =>
        match braceBlock cleaned.data with
        | some sub => jsonParse (pyStrip ⟨sub⟩)
        | none => none

/-- Lazy search for the first `\x7d` whose whitespace-skipped suffix starts a
closing fence; returns the full group `\x7b...\x7d` (model of the non-greedy
group in `re.search(r"\x60\x60\x60json\\s*(\\\x7b.*?\\\x7d)\\s*\x60\x60\x60", ...)`). -/
def findLazyClose : List Char → List Char → Option (List Char)
  | [], _ => none
  | c :: rest, acc =>
      if c = '}' && (rest.dropWhile isPyWs).take 3 = "```".data then
        some (('}' :: acc).reverse)
      else findLazyClose rest (c :: acc)

/-- Attempt the fenced-JSON pattern at the current position. -/
def tryFenceAt (cs : List Char) : Option (List Char) :=
  if startsWithCI "```json".data cs then
    match (cs.drop 7).dropWhile isPyWs with
    | c :: rest => if c = '{' then findLazyClose rest ['{'] else none
    | [] => none
  else none

/-- Leftmost successful occurrence of the fenced-JSON pattern. -/
def fencedSearch : List Char → Option (List Char)
  | [] => none
  | c :: rest =>
      match tryFenceAt (c :: rest) with
      | some g => some g
      | none => fencedSearch rest

/-- `extract_json_object` as defined in `agent_3_qa_gen.py`: fenced block
first, then direct parse, then greedy brace block. -/
def extractJsonObjectA3 (text0 : String) : Option J :=
  if text0 = "" then none
  else
    match (match fencedSearch (pyStrip text0).data with
           | some g => jsonParse (pyStrip ⟨g⟩)
           | none => none) with
    | some v => some v
    | none =>
        match jsonParse (pyStrip text0) with
        | some v => some v
        | none =>
            match braceBlock (pyStrip text0).data with
            | some sub => jsonParse (pyStrip ⟨sub⟩)
            | none => none

/-- Outcome of the recovery step at the top of `run_agent3`: either the
parsed data or the `\x7berror, raw_output\x7d` structure. -/
inductive Agent3Recover where
  | failure (error : String) (raw_output : String)
  | parsed (data : J)

/-- `run_agent3` recovery: `data = extract_json_object(text)`; a falsy result
yields the failure structure carrying `text`. -/
def agent3RecoverStep (text : String) : Agent3Recover :=
  match extractJsonObjectA3 text with
  | some d =>
      if truthyJ d then .parsed d
      else .failure "Failed to parse JSON from agent output." text
  | none => .failure "Failed to parse JSON from agent output." text

/-! ## Stage 3 round normalization and count/shape repair (`run_agent3`) -/

/-- Delimiters of the round split `re.split(r"[;\n|,]+", interview_rounds)`. -/
def isA3Delim (c : Char) : Bool :=
  c = ';' || c = '\n' || c = '|' || c = ','

/-- `re.split` on one-or-more delimiter characters (keeps boundary empties):
a delimiter followed by another delimiter is absorbed into the same run. -/
def rsplitDelims : List Char → List (List Char)
  | [] => [[]]
  | c :: cs =>
      if isA3Delim c then
        if ((cs.head?).map isA3Delim).getD false then rsplitDelims cs
        else [] :: rsplitDelims cs
      else
        match rsplitDelims cs with
        | g :: gs => (c :: g) :: gs
        | [] => [[c]]

/-- Default rounds substituted by `run_agent3` when normalization is empty. -/
def defaultRounds : List String :=
  ["Recruiter Screen", "Technical Round", "Hiring Manager", "Behavioral"]

/-- Round normalization at the top of `run_agent3`: split on `;`, newline,
`|`, `,`; strip; drop empties; fall back to the default rounds. -/
def agent3Rounds (interview_rounds : String) : List String :=
  if ((rsplitDelims interview_rounds.data).filterMap fun g =>
      if (pyStripL g).isEmpty then none
      else some ((⟨pyStripL g⟩ : String))).isEmpty then defaultRounds
  else (rsplitDelims interview_rounds.data).filterMap fun g =>
      if (pyStripL g).isEmpty then none
      else some ((⟨pyStripL g⟩ : String))

/-- Note appended when `top_30` comes back short. -/
def countNote (n : Nat) : String :=
  s!"Model returned {n} items in top_30 (expected 30). Consider re-running with lower temperature."

/-- Note appended when `top_20_questions` is derived from `top_30`. -/
def derivNote : String :=
  "top_20_questions was auto-derived from top_30 due to missing/short output."

/-- `data.setdefault("notes", []); data["notes"].append(note)` — raises
(`error`) when an existing `notes` value is not a list. -/
def appendNote (d : Dict) (note : String) : Except String Dict :=
  match dget (dsetd d "notes" (J.arr [])) "notes" with
  | some (J.arr ns) =>
      .ok (dset (dsetd d "notes" (J.arr [])) "notes" (J.arr (ns ++ [J.str note])))
  | _ => .error "AttributeError: append"

/-- The four `setdefault` calls on the `input` sub-object. -/
def patchInputKvs (a1 a2 dt : String) (rs : List String) (kvs : Dict) : Dict :=
  dsetd (dsetd (dsetd (dsetd kvs "agent1_file" (J.str a1))
    "agent2_file" (J.str a2)) "doc_type" (J.str dt)) "rounds" (J.arr (rs.map J.str))

/-- The `input` sub-object patching in `run_agent3` (setdefault of
`agent1_file`, `agent2_file`, `doc_type`, `rounds` from call context). -/
def repairInput (a1 a2 dt : String) (rs : List String) (d : Dict) :
    Except String Dict :=
  match dget (dsetd d "input" (J.obj [])) "input" with
  | some (J.obj kvs) =>
      .ok (dset (dsetd d "input" (J.obj [])) "input"
        (J.obj (patchInputKvs a1 a2 dt rs kvs)))
  | _ => .error "AttributeError: setdefault"

/-- The `top_30` count repair: truncate above 30, note below 30 (a missing
`top_30` defaults to the empty list for the count check only). -/
def repairTop30 (d : Dict) : Except String Dict :=
  match dget d "top_30" with
  | some (J.arr xs) =>
      if 30 < xs.length then .ok (dset d "top_30" (J.arr (xs.take 30)))
      else if xs.length < 30 then appendNote d (countNote xs.length)
      else .ok d
  | some _ => .ok d
  | none => appendNote d (countNote 0)

/-- One iteration of the derivation loop: a dict item whose `question` value
is truthy and not yet collected appends it (Python `in` compares with `==`,
here `beqJ`). -/
def deriveStep (acc : List J) (item : J) : List J :=
  match (match item with | J.obj kvs => dget kvs "question" | _ => none) with
  | some v => if truthyJ v && !(acc.any fun x => beqJ x v) then acc ++ [v] else acc
  | none => acc

/-- The `top_20_questions` derivation loop over `top_30`: collect truthy
`question` values of dict items, skip values already collected, stop as soon
as 20 are collected (the `break` sits after the length check). -/
def deriveGo : List J → List J → List J
  | [], acc => acc
  | item :: rest, acc =>
      if (deriveStep acc item).length = 20 then deriveStep acc item
      else deriveGo rest (deriveStep acc item)

def derive (items : List J) : List J := deriveGo items []

/-- The shortlist-derivation branch: only runs when `top_30` is a list. -/
def deriveBranch (d : Dict) : Except String Dict :=
  match dget d "top_30" with
  | some (J.arr t30) =>
      appendNote (dset d "top_20_questions" (J.arr (derive t30))) derivNote
  | _ => .ok d

/-- The `top_20_questions` count repair: truncate above 20, derive below 20
(a missing `top_20_questions` defaults to the empty list for the check). -/
def repairTop20 (d : Dict) : Except String Dict :=
  match dget d "top_20_questions" with
  | some (J.arr xs) =>
      if 20 < xs.length then .ok (dset d "top_20_questions" (J.arr (xs.take 20)))
      else if xs.length < 20 then deriveBranch d
      else .ok d
  | some _ => .ok d
  | none => deriveBranch d

/-- The whole post-recovery patch block of `run_agent3` (lines 259-298):
input patching, `top_30` count repair, `top_20_questions` repair; `error`
models the `except` branch returning the post-processing failure object. -/
def agent3Repair (a1 a2 dt : String) (rs : List String) (d : Dict) :
    Except String Dict := do
  let d1 ← repairInput a1 a2 dt rs d
  let d2 ← repairTop30 d1
  repairTop20 d2

/-! ## Runner round parsing (`runner.py`, `_parse_rounds`) -/

/-- `rounds_text.replace("\r", "\n")`. -/
def replaceCRwithLF (cs : List Char) : List Char :=
  cs.map fun c => if c = '\r' then '\n' else c

/-- The concatenated pre-deduplication list built by `_parse_rounds`: stripped
non-empty entries from the repeated `--round` flags, then stripped non-empty
fields of the `--interview_rounds` string split on newline and `;`. -/
def parseRoundsPre (roundsArgs : Option (List String)) (roundsText : Option String) :
    List String :=
  (match roundsArgs with
   | some args =>
       args.filterMap fun r =>
         if pyStrip r = "" then none else some (pyStrip r)
   | none => []) ++
  (match roundsText with
   | some t =>
       if t = "" then []
       else
         ((splitOnChar '\n' (replaceCRwithLF t.data)).flatMap
           (fun part => splitOnChar ';' part)).filterMap fun p =>
             if (pyStripL p).isEmpty then none else some (⟨pyStripL p⟩ : String)
   | none => [])

/-- The seen-set deduplication loop of `_parse_rounds` (first occurrence kept). -/
def dedupFirstGo (seen : List String) : List String → List String
  | [] => []
  | r :: rest =>
      if r ∈ seen then dedupFirstGo seen rest
      else r :: dedupFirstGo (r :: seen) rest

/-- `_parse_rounds(rounds_args, rounds_text)`. -/
def parseRounds (roundsArgs : Option (List String)) (roundsText : Option String) :
    List String :=
  dedupFirstGo [] (parseRoundsPre roundsArgs roundsText)

/-! ## Stage 2 company/role resolution (`agent_2_researcher.py`) -/

/-- A Stage 1 parsed-document record as fixed by `Agent1ParsedDoc`
(`app/shared/schemas.py`): string fields and entities grouping label to
list of string. -/
structure Agent1Doc where
  file_path : String := ""
  doc_type : String
  summary : String := ""
  key_points : List String := []
  entities : List (String × List String)
  raw_text_preview : String
deriving DecidableEq

/-- First entities group among the looked-up labels. -/
def entLookup (es : List (String × List String)) (k : String) : Option (List String) :=
  (es.find? (·.1 = k)).map (·.2)

def companyKeys : List String :=
  ["Hiring Company", "Company", "Companies", "company", "companies"]

/-- The entity-key loop of `guess_company_and_role`: first non-empty list
among the company keys supplies `entities[k][0]`. -/
def companyFromEntities (es : List (String × List String)) : Option String :=
  companyKeys.findSome? fun k =>
    match entLookup es k with
    | some (v :: _) => some v
    | _ => none

def isWordChar (c : Char) : Bool := c.isAlpha || c.isDigit || c = '_'

/-- Character class `[A-Za-z0-9 /&\-\(\)]` of the role regex. -/
def roleClass (c : Char) : Bool :=
  c.isAlpha || c.isDigit || c = ' ' || c = '/' || c = '&' || c = '-' ||
    c = '(' || c = ')'

/-- Character class `[A-Za-z0-9 .&\-\(\)]` of the JD company regex. -/
def companyClass (c : Char) : Bool :=
  c.isAlpha || c.isDigit || c = ' ' || c = '.' || c = '&' || c = '-' ||
    c = '(' || c = ')'

/-- Last index of `cs` whose character satisfies `p`. -/
def lastIdxSat (p : Char → Bool) (cs : List Char) : Option Nat :=
  match cs.reverse.findIdx? p with
  | some k => some (cs.length - 1 - k)
  | none => none

/-- Backtracking of a greedy `\\s*` into a following `cls+` group: the group
restarts at the last whitespace character that is also in `cls`. -/
def wsBacktrack (cls : Char → Bool) (ws2 r3 : List Char) : Option (List Char) :=
  match lastIdxSat cls ws2 with
  | some k => some ((ws2.drop k ++ r3).takeWhile cls)
  | none => none

/-- Attempt `(?i)\\b(lit1|lit2|...)\\s*[:\\-]\\s*(cls+)` at the current
position (`prev` is the preceding character, for the word boundary); returns
the captured `cls+` group. -/
def matchLabelAt (lits : List (List Char)) (cls : Char → Bool)
    (prev : Option Char) (cs : List Char) : Option (List Char) :=
  if (match prev with | some p => isWordChar p | none => false) then none
  else
    match lits.findSome? (fun lit => if startsWithCI lit cs then some lit else none) with
    | some lit =>
        let rest := cs.drop lit.length
        let r1 := rest.dropWhile isPyWs
        match r1 with
        | c :: r2 =>
            if c = ':' ∨ c = '-' then
              let (ws2, r3) := r2.span isPyWs
              match r3 with
              | c2 :: _ =>
                  if cls c2 then some (r3.takeWhile cls)
                  else wsBacktrack cls ws2 r3
              | [] => wsBacktrack cls ws2 []
            else none
        | [] => none
    | none => none

/-- Leftmost match of the label pattern (model of `re.search`). -/
def labelSearch (lits : List (List Char)) (cls : Char → Bool) :
    Option Char → List Char → Option (List Char)
  | _, [] => none
  | prev, c :: rest =>
      match matchLabelAt lits cls prev (c :: rest) with
      | some g => some g
      | none => labelSearch lits cls (some c) rest

/-- `re.search(r"(?i)\\b(role|position|title)\\s*[:\\-]\\s*([A-Za-z0-9 /&\\-\\(\\)]+)", preview)`
followed by `.group(2).strip()`. -/
def roleFromPreview (preview : String) : Option String :=
  (labelSearch ["role".data, "position".data, "title".data] roleClass
    none preview.data).map fun g => (⟨pyStripL g⟩ : String)

/-- `re.search(r"(?i)\\bcompany\\s*[:\\-]\\s*([A-Za-z0-9 .&\\-\\(\\)]+)", preview)`
followed by `.group(1).strip()`. -/
def companyFromPreview (preview : String) : Option String :=
  (labelSearch ["company".data] companyClass none preview.data).map
    fun g => (⟨pyStripL g⟩ : String)

/-- `guess_company_and_role(agent1)`: company from entity keys, role from the
preview; a resume never takes the JD `Company:` fallback, a JD does when the
entity company is falsy. -/
def guessCompanyAndRole (a1 : Agent1Doc) : Option String × Option String :=
  let company0 := companyFromEntities a1.entities
  let role := roleFromPreview a1.raw_text_preview
  if pyLower a1.doc_type = "resume" then (company0, role)
  else
    let company :=
      if truthyS company0 then company0
      else
        match companyFromPreview a1.raw_text_preview with
        | some c => some c
        | none => company0
    (company, role)

structure NewsItem where
  title : String
  source : String
  date : Option String
  url : String
  summary : String
deriving DecidableEq

/-- Stage 2 output schema (`CompanyResearchReport`). -/
structure CompanyResearchReport where
  company_name : String
  role_title : Option String
  overview : String
  mission_values : List String := []
  products_services : List String := []
  business_model : List String := []
  interview_focus : List String := []
  interview_process : List String := []
  recent_news : List NewsItem := []
  sources : List String := []
  notes : Option String := none
deriving DecidableEq

/-- The need-input stub built by `run_agent2` when no company is resolved. -/
def stubReport (role_title : Option String) : CompanyResearchReport :=
  { company_name := "unknown"
    role_title := role_title
    overview := "Company name not found in Agent 1 output. Provide a company name override."
    notes := some "Missing company_name. Pass --company or supply a JD with company name." }

/-- What `run_agent2` does up to its single external call: either it returns
the stub report without invoking the research agent, or it invokes the agent
on the resolved company/role payload. -/
inductive Agent2Outcome where
  | stub (report : CompanyResearchReport)
  | invoke (company_name : String) (role_title : Option String) (agent1_doc_type : String)
deriving DecidableEq

/-- `run_agent2(agent1_output, company_override, role_override)`:
overrides win when truthy; a falsy company short-circuits to the stub. -/
def runAgent2 (a1 : Agent1Doc) (company_override role_override : Option String) :
    Agent2Outcome :=
  match (if truthyS company_override then company_override
         else (guessCompanyAndRole a1).1) with
  | some c =>
      if c = "" then
        .stub (stubReport (if truthyS role_override then role_override
          else (guessCompanyAndRole a1).2))
      else
        .invoke c (if truthyS role_override then role_override
          else (guessCompanyAndRole a1).2) a1.doc_type
  | none =>
      .stub (stubReport (if truthyS role_override then role_override
        else (guessCompanyAndRole a1).2))

/-! ## Candidate-contact extraction (`agent_4_dispatcher.py`) -/

/-- Character class `[\\w\\.-]` of `EMAIL_REGEX`. -/
def emailClass (c : Char) : Bool := isWordChar c || c = '.' || c = '-'

/-- Largest domain-dot position usable by the greedy backtracking of
`[\\w\\.-]+@[\\w\\.-]+\\.\\w+`: a `.` preceded by at least one domain character
and followed by a word character. -/
def findDomainDot (lb : List Char) : Option Nat :=
  ((List.range lb.length).reverse).find? fun d =>
    decide (1 ≤ d) && decide (lb.get? d = some '.') &&
      (match lb.get? (d + 1) with
       | some c => isWordChar c
       | none => false)

/-- Attempt `EMAIL_REGEX` at the current position. -/
def emailMatchAt (cs : List Char) : Option (List Char) :=
  let (la, r1) := cs.span emailClass
  if la.isEmpty then none
  else
    match r1 with
    | '@' :: r2 =>
        let lb := r2.takeWhile emailClass
        (match findDomainDot lb with
         | some d =>
             let tail := (lb.drop (d + 1)).takeWhile isWordChar
             some (la ++ '@' :: (lb.take (d + 1) ++ tail))
         | none => none)
    | _ => none

def emailSearchGo : List Char → Option (List Char)
  | [] => none
  | c :: rest =>
      match emailMatchAt (c :: rest) with
      | some m => some m
      | none => emailSearchGo rest

/-- `EMAIL_REGEX.search(value)` followed by `.group(0).strip()`. -/
def emailSearch (s : String) : Option String :=
  (emailSearchGo s.data).map fun m => (⟨pyStripL m⟩ : String)

mutual

/-- `_find_email_in_any(value)`: recursive first-email search through nested
strings, lists and dicts (common keys before a full value scan). -/
def findEmailInAny : J → Option String
  | .null => none
  | .bool _ => none
  | .num _ => none
  | .numRaw _ => none
  | .str s => emailSearch s
  | .arr xs => findEmailList xs
  | .obj kvs =>
      match findEmailKey "email" kvs with
      | some (some e) => some e
      | _ =>
          match findEmailKey "candidate_email" kvs with
          | some (some e) => some e
          | _ =>
              match findEmailKey "recipient_email" kvs with
              | some (some e) => some e
              | _ =>
                  match findEmailKey "mail" kvs with
                  | some (some e) => some e
                  | _ => findEmailVals kvs

def findEmailList : List J → Option String
  | [] => none
  | x :: xs =>
      match findEmailInAny x with
      | some e => some e
      | none => findEmailList xs

/-- Search the first binding of key `k`; `none` when the key is absent. -/
def findEmailKey (k : String) : List (String × J) → Option (Option String)
  | [] => none
  | (k', v) :: rest =>
      if k' = k then some (findEmailInAny v) else findEmailKey k rest

def findEmailVals : List (String × J) → Option String
  | [] => none
  | (_, v) :: rest =>
      match findEmailInAny v with
      | some e => some e
      | none => findEmailVals rest

end

def contactLabels : List String :=
  ["Contact Information", "contact_information", "contact info", "contact",
   "Contact", "Personal Information", "personal_info"]

def topNameKeys : List String := ["name", "candidate_name", "full_name"]

/-- The top-level name fallback (step 4 of `extract_candidate_contact`). -/
def nameFromTop (a1 : Dict) : Option String :=
  topNameKeys.findSome? fun k =>
    match dget a1 k with
    | some (J.str s) => if pyStrip s = "" then none else some (pyStrip s)
    | _ => none

/-- The first-line name heuristic (step 3 of `extract_candidate_contact`):
first line of the preview, trimmed, text before `|`, trimmed; empty results
count as no name. -/
def nameHeuristic (preview : String) : Option String :=
  if preview = "" then none
  else
    match (pySplitlines preview.data).head? with
    | some l =>
        if (pyStripL l).isEmpty then none
        else some (⟨pyStripL ((pyStripL l).takeWhile (· ≠ '|'))⟩ : String)
    | none => none

/-- `extract_candidate_contact(agent1)`; the only Python-level exception is
`splitlines` on a truthy non-string `raw_text_preview`. -/
def extractCandidateContact (a1 : Dict) :
    Except String (Option String × Option String) :=
  let email1 : Option String :=
    ["email", "candidate_email", "recipient_email"].findSome? fun k =>
      match dget a1 k with
      | some v => findEmailInAny v
      | none => none
  let entv : J :=
    match dget a1 "entities" with
    | some v => if truthyJ v then v else J.obj []
    | none => J.obj []
  let email2 : Option String :=
    match email1 with
    | some e => some e
    | none =>
        match entv with
        | J.obj ekvs =>
            let viaLabels := contactLabels.findSome? fun k =>
              match dget ekvs k with
              | some v => findEmailInAny v
              | none => none
            (match viaLabels with
             | some e => some e
             | none => findEmailInAny (J.obj ekvs))
        | _ => none
  let rawv : J :=
    match dget a1 "raw_text_preview" with
    | some v => if truthyJ v then v else J.str ""
    | none => J.str ""
  match rawv with
  | J.str s =>
      let email3 : Option String :=
        if s = "" then email2
        else
          match email2 with
          | some e => some e
          | none => emailSearch s
      let name :=
        if truthyS (nameHeuristic s) then nameHeuristic s else nameFromTop a1
      .ok (email3, name)
  | _ => .error "AttributeError: splitlines"

/-! ## Specification-side definitions

Definitions following the words of the specification/claims, to be compared
with the embedded code. -/

/-- Claim reading of the shortlist derivation: collect each `question` value
of `top_30` in order, skipping exact duplicates, stopping at 20. -/
def specCollectQuestions (items : List J) : List J :=
  (items.foldl
    (fun acc item =>
      match (match item with | J.obj kvs => dget kvs "question" | _ => none) with
      | some v => if !(acc.any fun x => beqJ x v) then acc ++ [v] else acc
      | none => acc)
    []).take 20

/-- The uncapped distinct truthy-question collection actually performed by
the code (the loop `deriveGo` equals its first 20 entries). -/
def collectQ (items : List J) (acc : List J) : List J :=
  items.foldl deriveStep acc

def collectTruthyQuestions (items : List J) : List J := collectQ items []

/-- First-occurrence deduplication, as the claim words it. -/
def specDedup : List String → List String
  | [] => []
  | x :: xs => x :: specDedup (xs.filter (· ≠ x))
  termination_by l => l.length
  decreasing_by
    simp only [List.length_cons]
    exact Nat.lt_succ_of_le (List.length_filter_le _ _)

/-- The `notes` field is a list. -/
def notesArr (d : Dict) : Prop := ∃ l, dget d "notes" = some (J.arr l)

/-- The `notes` field is absent or a list (so `.append` cannot raise). -/
def notesOk (d : Dict) : Prop := dget d "notes" = none ∨ notesArr d

/-- The `input` field is absent or an object (so `.setdefault` cannot raise). -/
def inputOk (d : Dict) : Prop :=
  dget d "input" = none ∨ ∃ kvs, dget d "input" = some (J.obj kvs)

/-! ## Equality of dynamic values is decidable -/

theorem beqJList_iff (xs ys : List J)
    (ih : ∀ x ∈ xs, ∀ b, beqJ x b = true ↔ x = b) :
    beqJList xs ys = true ↔ xs = ys := by
  induction xs generalizing ys with
  | nil => cases ys <;> simp [beqJList]
  | cons x xs ihx =>
      cases ys with
      | nil => simp [beqJList]
      | cons y ys =>
          simp only [beqJList, Bool.and_eq_true, List.cons.injEq]
          rw [ih x (by simp), ihx ys (fun z hz b => ih z (by simp [hz]) b)]

theorem beqJKvs_iff (xs ys : List (String × J))
    (ih : ∀ p ∈ xs, ∀ b, beqJ p.2 b = true ↔ p.2 = b) :
    beqJKvs xs ys = true ↔ xs = ys := by
  induction xs generalizing ys with
  | nil => cases ys <;> simp [beqJKvs]
  | cons x xs ihx =>
      cases ys with
      | nil => cases x; simp [beqJKvs]
      | cons y ys =>
          cases x with
          | mk k v =>
            cases y with
            | mk k' v' =>
              simp only [beqJKvs, Bool.and_eq_true, List.cons.injEq,
                Prod.mk.injEq, decide_eq_true_eq]
              rw [ih (k, v) (by simp), ihx ys (fun z hz b => ih z (by simp [hz]) b)]

theorem beqJ_iff : ∀ a b : J, beqJ a b = true ↔ a = b
  | .null, b => by cases b <;> simp [beqJ]
  | .bool a, b => by cases b <;> simp [beqJ]
  | .num a, b => by cases b <;> simp [beqJ]
  | .numRaw a, b => by cases b <;> simp [beqJ]
  | .str a, b => by cases b <;> simp [beqJ]
  | .arr xs, b => by
      cases b
      case arr ys =>
        simp only [beqJ, J.arr.injEq]
        exact beqJList_iff xs ys (fun x hx b =>
          have h : sizeOf x < 1 + sizeOf xs := by
            have := List.sizeOf_lt_of_mem hx; omega
          beqJ_iff x b)
      all_goals simp [beqJ]
  | .obj kvs, b => by
      cases b
      case obj kvs' =>
        simp only [beqJ, J.obj.injEq]
        exact beqJKvs_iff kvs kvs' (fun p hp b =>
          have h : sizeOf p.2 < 1 + sizeOf kvs := by
            have h1 := List.sizeOf_lt_of_mem hp
            have h2 : sizeOf p.2 < sizeOf p := by
              obtain ⟨k, v⟩ := p; simp
            omega
          beqJ_iff p.2 b)
      all_goals simp [beqJ]
  termination_by a _ => sizeOf a
  decreasing_by all_goals { simp only [J.arr.sizeOf_spec, J.obj.sizeOf_spec]; omega }

instance : DecidableEq J := fun a b => decidable_of_iff _ (beqJ_iff a b)

deriving instance DecidableEq for Except

deriving instance DecidableEq for Agent3Recover

/-! ## Dictionary lemmas -/

theorem dget_dset_self (d : Dict) (k : String) (v : J) :
    dget (dset d k v) k = some v := by
  induction d with
  | nil => simp [dset, dget]
  | cons p rest ih =>
      obtain ⟨k0, v0⟩ := p
      by_cases h : k0 = k <;> simp [dset, dget, h, ih]

theorem dget_dset_ne (d : Dict) (k : String) (v : J) (k' : String) (h : k ≠ k') :
    dget (dset d k v) k' = dget d k' := by
  induction d with
  | nil => simp [dset, dget, h]
  | cons p rest ih =>
      obtain ⟨k0, v0⟩ := p
      by_cases h0 : k0 = k
      · subst h0
        simp [dset, dget, h]
      · simp [dset, dget, h0, ih]

theorem dset_self_id (d : Dict) (k : String) (v : J) (h : dget d k = some v) :
    dset d k v = d := by
  induction d with
  | nil => simp [dget] at h
  | cons p rest ih =>
      obtain ⟨k0, v0⟩ := p
      by_cases h0 : k0 = k
      · subst h0
        simp [dget] at h
        simp [dset, h]
      · simp [dget, h0] at h
        simp [dset, h0, ih h]

theorem dget_append (d1 d2 : Dict) (k : String) :
    dget (d1 ++ d2) k =
      match dget d1 k with
      | some v => some v
      | none => dget d2 k := by
  induction d1 with
  | nil => simp [dget]
  | cons p rest ih =>
      obtain ⟨k0, v0⟩ := p
      by_cases h0 : k0 = k <;> simp [dget, h0, ih]

theorem dsetd_present (d : Dict) (k : String) (v w : J) (h : dget d k = some w) :
    dsetd d k v = d := by
  simp [dsetd, h]

theorem dget_dsetd_ne (d : Dict) (k : String) (v : J) (k' : String) (h : k ≠ k') :
    dget (dsetd d k v) k' = dget d k' := by
  unfold dsetd
  cases hh : dget d k with
  | some w => rfl
  | none =>
      rw [dget_append]
      cases hd : dget d k' with
      | some w => rfl
      | none => simp [dget, h]

theorem dget_dsetd_absent (d : Dict) (k : String) (v : J) (h : dget d k = none) :
    dget (dsetd d k v) k = some v := by
  unfold dsetd
  rw [h, dget_append, h]
  simp [dget]

theorem dget_dsetd_isSome (d : Dict) (k : String) (v : J) :
    (dget (dsetd d k v) k).isSome := by
  unfold dsetd
  cases hh : dget d k with
  | some w => simp [hh]
  | none => rw [dget_append, hh]; simp [dget]

/-! ## `appendNote` lemmas -/

theorem appendNote_pres (d : Dict) (n : String) (e : Dict)
    (h : appendNote d n = .ok e) :
    ∀ k, k ≠ "notes" → dget e k = dget d k := by
  unfold appendNote at h
  cases hh : dget (dsetd d "notes" (J.arr [])) "notes" with
  | none => rw [hh] at h; exact absurd h (by simp)
  | some w =>
      cases w with
      | arr ns =>
          rw [hh] at h
          simp only [Except.ok.injEq] at h
          subst h
          intro k hk
          rw [dget_dset_ne _ _ _ _ (Ne.symm hk), dget_dsetd_ne _ _ _ _ (Ne.symm hk)]
      | null => rw [hh] at h; exact absurd h (by simp)
      | bool b => rw [hh] at h; exact absurd h (by simp)
      | num m => rw [hh] at h; exact absurd h (by simp)
      | numRaw l => rw [hh] at h; exact absurd h (by simp)
      | str s => rw [hh] at h; exact absurd h (by simp)
      | obj kvs => rw [hh] at h; exact absurd h (by simp)

theorem appendNote_notes (d : Dict) (n : String) (e : Dict)
    (h : appendNote d n = .ok e) :
    ∃ l, dget e "notes" = some (J.arr (l ++ [J.str n])) := by
  unfold appendNote at h
  cases hh : dget (dsetd d "notes" (J.arr [])) "notes" with
  | none => rw [hh] at h; exact absurd h (by simp)
  | some w =>
      cases w with
      | arr ns =>
          rw [hh] at h
          simp only [Except.ok.injEq] at h
          subst h
          exact ⟨ns, dget_dset_self _ _ _⟩
      | null => rw [hh] at h; exact absurd h (by simp)
      | bool b => rw [hh] at h; exact absurd h (by simp)
      | num m => rw [hh] at h; exact absurd h (by simp)
      | numRaw l => rw [hh] at h; exact absurd h (by simp)
      | str s => rw [hh] at h; exact absurd h (by simp)
      | obj kvs => rw [hh] at h; exact absurd h (by simp)

theorem appendNote_notesArr (d : Dict) (n : String) (e : Dict)
    (h : appendNote d n = .ok e) : notesArr e := by
  obtain ⟨l, hl⟩ := appendNote_notes d n e h
  exact ⟨l ++ [J.str n], hl⟩

theorem appendNote_ok_of_notesOk (d : Dict) (n : String) (h : notesOk d) :
    ∃ e, appendNote d n = .ok e := by
  unfold appendNote
  rcases h with h | ⟨l, h⟩
  · rw [dget_dsetd_absent _ _ _ h]
    exact ⟨_, rfl⟩
  · rw [dsetd_present _ _ _ _ h, h]
    exact ⟨_, rfl⟩

/-! ## `repairInput` lemmas -/

theorem patchInputKvs_keys (a1 a2 dt : String) (rs : List String) (kvs : Dict) :
    (dget (patchInputKvs a1 a2 dt rs kvs) "agent1_file").isSome ∧
    (dget (patchInputKvs a1 a2 dt rs kvs) "agent2_file").isSome ∧
    (dget (patchInputKvs a1 a2 dt rs kvs) "doc_type").isSome ∧
    (dget (patchInputKvs a1 a2 dt rs kvs) "rounds").isSome := by
  unfold patchInputKvs
  refine ⟨?_, ?_, ?_, ?_⟩
  · rw [dget_dsetd_ne _ _ _ _ (by decide), dget_dsetd_ne _ _ _ _ (by decide),
      dget_dsetd_ne _ _ _ _ (by decide)]
    exact dget_dsetd_isSome _ _ _
  · rw [dget_dsetd_ne _ _ _ _ (by decide), dget_dsetd_ne _ _ _ _ (by decide)]
    exact dget_dsetd_isSome _ _ _
  · rw [dget_dsetd_ne _ _ _ _ (by decide)]
    exact dget_dsetd_isSome _ _ _
  · exact dget_dsetd_isSome _ _ _

theorem patchInputKvs_id (a1 a2 dt : String) (rs : List String) (kvs : Dict)
    (h1 : (dget kvs "agent1_file").isSome) (h2 : (dget kvs "agent2_file").isSome)
    (h3 : (dget kvs "doc_type").isSome) (h4 : (dget kvs "rounds").isSome) :
    patchInputKvs a1 a2 dt rs kvs = kvs := by
  obtain ⟨w1, hw1⟩ := Option.isSome_iff_exists.mp h1
  obtain ⟨w2, hw2⟩ := Option.isSome_iff_exists.mp h2
  obtain ⟨w3, hw3⟩ := Option.isSome_iff_exists.mp h3
  obtain ⟨w4, hw4⟩ := Option.isSome_iff_exists.mp h4
  unfold patchInputKvs
  rw [dsetd_present _ _ _ _ hw1, dsetd_present _ _ _ _ hw2,
    dsetd_present _ _ _ _ hw3, dsetd_present _ _ _ _ hw4]

theorem repairInput_ok_char (a1 a2 dt : String) (rs : List String) (d a : Dict)
    (h : repairInput a1 a2 dt rs d = .ok a) :
    (∀ k, k ≠ "input" → dget a k = dget d k) ∧
    ∃ kvs, dget a "input" = some (J.obj kvs) ∧
      (dget kvs "agent1_file").isSome ∧ (dget kvs "agent2_file").isSome ∧
      (dget kvs "doc_type").isSome ∧ (dget kvs "rounds").isSome := by
  unfold repairInput at h
  split at h
  case h_1 kvs heq =>
      simp only [Except.ok.injEq] at h
      subst h
      constructor
      · intro k hk
        rw [dget_dset_ne _ _ _ _ (Ne.symm hk), dget_dsetd_ne _ _ _ _ (Ne.symm hk)]
      · refine ⟨patchInputKvs a1 a2 dt rs kvs, dget_dset_self _ _ _, ?_⟩
        exact patchInputKvs_keys a1 a2 dt rs kvs
  case h_2 => exact absurd h (by simp)

theorem repairInput_ok_of (a1 a2 dt : String) (rs : List String) (d : Dict)
    (h : inputOk d) : ∃ a, repairInput a1 a2 dt rs d = .ok a := by
  unfold repairInput
  rcases h with h | ⟨kvs, h⟩
  · rw [dget_dsetd_absent _ _ _ h]
    exact ⟨_, rfl⟩
  · rw [dsetd_present _ _ _ _ h, h]
    exact ⟨_, rfl⟩

theorem repairInput_id (a1 a2 dt : String) (rs : List String) (d : Dict)
    (kvs : Dict) (h : dget d "input" = some (J.obj kvs))
    (h1 : (dget kvs "agent1_file").isSome) (h2 : (dget kvs "agent2_file").isSome)
    (h3 : (dget kvs "doc_type").isSome) (h4 : (dget kvs "rounds").isSome) :
    repairInput a1 a2 dt rs d = .ok d := by
  unfold repairInput
  rw [dsetd_present _ _ _ _ h, h]
  show Except.ok (dset d "input" (J.obj (patchInputKvs a1 a2 dt rs kvs))) = Except.ok d
  rw [patchInputKvs_id a1 a2 dt rs kvs h1 h2 h3 h4, dset_self_id d "input" (J.obj kvs) h]

/-! ## `repairTop30` lemmas -/

theorem repairTop30_pres (d b : Dict) (h : repairTop30 d = .ok b) :
    ∀ k, k ≠ "top_30" → k ≠ "notes" → dget b k = dget d k := by
  unfold repairTop30 at h
  split at h
  case h_1 xs heq =>
      split at h
      · simp only [Except.ok.injEq] at h
        subst h
        intro k hk1 _
        rw [dget_dset_ne _ _ _ _ (Ne.symm hk1)]
      · split at h
        · intro k _ hk2
          exact appendNote_pres _ _ _ h k hk2
        · simp only [Except.ok.injEq] at h
          subst h
          intro k _ _
          rfl
  case h_2 w heq hne =>
      simp only [Except.ok.injEq] at h
      subst h
      intro k _ _
      rfl
  case h_3 heq =>
      intro k _ hk2
      exact appendNote_pres _ _ _ h k hk2

theorem repairTop30_notesArr (d b : Dict) (h : repairTop30 d = .ok b)
    (hn : notesArr d) : notesArr b := by
  unfold repairTop30 at h
  split at h
  case h_1 xs heq =>
      split at h
      · simp only [Except.ok.injEq] at h
        subst h
        obtain ⟨l, hl⟩ := hn
        exact ⟨l, by rw [dget_dset_ne _ _ _ _ (by decide)]; exact hl⟩
      · split at h
        · exact appendNote_notesArr _ _ _ h
        · simp only [Except.ok.injEq] at h
          subst h
          exact hn
  case h_2 w heq hne =>
      simp only [Except.ok.injEq] at h
      subst h
      exact hn
  case h_3 heq => exact appendNote_notesArr _ _ _ h

theorem repairTop30_char (d b : Dict) (h : repairTop30 d = .ok b) :
    (∀ xs, dget b "top_30" = some (J.arr xs) →
      xs.length ≤ 30 ∧ (xs.length < 30 → notesArr b)) ∧
    (dget b "top_30" = none → notesArr b) := by
  unfold repairTop30 at h
  split at h
  case h_1 xs heq =>
      split at h
      case isTrue hgt =>
          simp only [Except.ok.injEq] at h
          subst h
          have hb : dget (dset d "top_30" (J.arr (xs.take 30))) "top_30"
              = some (J.arr (xs.take 30)) := dget_dset_self _ _ _
          constructor
          · intro ys hy
            rw [hb] at hy
            simp only [Option.some.injEq, J.arr.injEq] at hy
            subst hy
            constructor
            · simp [List.length_take]
            · intro hlt
              rw [List.length_take] at hlt
              omega
          · intro hnone
            rw [hb] at hnone
            exact absurd hnone (by simp)
      case isFalse hle =>
          split at h
          case isTrue hlt =>
              have hb : dget b "top_30" = some (J.arr xs) := by
                rw [appendNote_pres _ _ _ h "top_30" (by decide)]
                exact heq
              constructor
              · intro ys hy
                rw [hb] at hy
                simp only [Option.some.injEq, J.arr.injEq] at hy
                subst hy
                exact ⟨by omega, fun _ => appendNote_notesArr _ _ _ h⟩
              · intro hnone
                rw [hb] at hnone
                exact absurd hnone (by simp)
          case isFalse hge =>
              simp only [Except.ok.injEq] at h
              subst h
              constructor
              · intro ys hy
                rw [heq] at hy
                simp only [Option.some.injEq, J.arr.injEq] at hy
                subst hy
                exact ⟨by omega, fun hlt => absurd hlt (by omega)⟩
              · intro hnone
                rw [heq] at hnone
                exact absurd hnone (by simp)
  case h_2 w heq hne =>
      simp only [Except.ok.injEq] at h
      subst h
      constructor
      · intro ys hy
        rw [hne] at hy
        simp only [Option.some.injEq] at hy
        exact (heq ys hy).elim
      · intro hnone
        rw [hne] at hnone
        exact absurd hnone (by simp)
  case h_3 heq =>
      have hb : dget b "top_30" = none := by
        rw [appendNote_pres _ _ _ h "top_30" (by decide)]
        exact heq
      constructor
      · intro ys hy
        rw [hb] at hy
        exact absurd hy (by simp)
      · intro _
        exact appendNote_notesArr _ _ _ h

theorem repairTop30_again (b : Dict)
    (h1 : ∀ xs, dget b "top_30" = some (J.arr xs) →
      xs.length ≤ 30 ∧ (xs.length < 30 → notesArr b))
    (h2 : dget b "top_30" = none → notesArr b) :
    ∃ b', repairTop30 b = .ok b' ∧ (∀ k, k ≠ "notes" → dget b' k = dget b k) ∧
      (notesArr b → notesArr b') := by
  cases hb : dget b "top_30" with
  | none =>
      obtain ⟨e, he⟩ := appendNote_ok_of_notesOk b (countNote 0) (Or.inr (h2 hb))
      refine ⟨e, ?_, fun k hk => appendNote_pres _ _ _ he k hk,
        fun _ => appendNote_notesArr _ _ _ he⟩
      simp only [repairTop30, hb]
      exact he
  | some w =>
      cases w with
      | arr xs =>
          have hle := (h1 xs hb).1
          by_cases hlen : xs.length < 30
          · obtain ⟨e, he⟩ := appendNote_ok_of_notesOk b (countNote xs.length)
              (Or.inr ((h1 xs hb).2 hlen))
            refine ⟨e, ?_, fun k hk => appendNote_pres _ _ _ he k hk,
              fun _ => appendNote_notesArr _ _ _ he⟩
            simp only [repairTop30, hb]
            rw [if_neg (by omega), if_pos hlen]
            exact he
          · refine ⟨b, ?_, fun _ _ => rfl, fun hn => hn⟩
            simp only [repairTop30, hb]
            rw [if_neg (by omega), if_neg hlen]
      | null => exact ⟨b, by simp [repairTop30, hb], fun _ _ => rfl, fun hn => hn⟩
      | bool c => exact ⟨b, by simp [repairTop30, hb], fun _ _ => rfl, fun hn => hn⟩
      | num n => exact ⟨b, by simp [repairTop30, hb], fun _ _ => rfl, fun hn => hn⟩
      | numRaw l => exact ⟨b, by simp [repairTop30, hb], fun _ _ => rfl, fun hn => hn⟩
      | str s => exact ⟨b, by simp [repairTop30, hb], fun _ _ => rfl, fun hn => hn⟩
      | obj kvs => exact ⟨b, by simp [repairTop30, hb], fun _ _ => rfl, fun hn => hn⟩

/-! ## Derivation-loop lemmas -/

theorem deriveStep_le (acc : List J) (item : J) :
    (deriveStep acc item).length ≤ acc.length + 1 := by
  unfold deriveStep
  split
  · split <;> simp
  · simp

theorem deriveStep_extends (acc : List J) (item : J) :
    ∃ ext, deriveStep acc item = acc ++ ext := by
  unfold deriveStep
  split
  · split
    · exact ⟨_, rfl⟩
    · exact ⟨[], by simp⟩
  · exact ⟨[], by simp⟩

theorem collectQ_extends (items : List J) (acc : List J) :
    ∃ ext, collectQ items acc = acc ++ ext := by
  induction items generalizing acc with
  | nil => exact ⟨[], by simp [collectQ]⟩
  | cons item rest ih =>
      obtain ⟨e1, h1⟩ := deriveStep_extends acc item
      obtain ⟨e2, h2⟩ := ih (deriveStep acc item)
      refine ⟨e1 ++ e2, ?_⟩
      have : collectQ (item :: rest) acc = collectQ rest (deriveStep acc item) := rfl
      rw [this, h2, h1, List.append_assoc]

theorem deriveGo_le (items : List J) (acc : List J) (h : acc.length < 20) :
    (deriveGo items acc).length ≤ 20 := by
  induction items generalizing acc with
  | nil => simp [deriveGo]; omega
  | cons item rest ih =>
      have hs := deriveStep_le acc item
      by_cases h20 : (deriveStep acc item).length = 20
      · simp [deriveGo, h20]
      · simp only [deriveGo, if_neg h20]
        exact ih _ (by omega)

theorem deriveGo_eq_take (items : List J) (acc : List J) (h : acc.length < 20) :
    deriveGo items acc = (collectQ items acc).take 20 := by
  induction items generalizing acc with
  | nil =>
      simp only [deriveGo, collectQ, List.foldl_nil]
      exact (List.take_of_length_le (by omega)).symm
  | cons item rest ih =>
      have hstep : collectQ (item :: rest) acc = collectQ rest (deriveStep acc item) := rfl
      by_cases h20 : (deriveStep acc item).length = 20
      · simp only [deriveGo, if_pos h20, hstep]
        obtain ⟨ext, hx⟩ := collectQ_extends rest (deriveStep acc item)
        rw [hx, List.take_append_eq_append_take,
          List.take_of_length_le (by omega), h20]
        simp
      · have hs := deriveStep_le acc item
        simp only [deriveGo, if_neg h20, hstep]
        exact ih _ (by omega)

theorem derive_le (items : List J) : (derive items).length ≤ 20 :=
  deriveGo_le items [] (by simp)

theorem derive_eq_take (items : List J) :
    derive items = (collectTruthyQuestions items).take 20 :=
  deriveGo_eq_take items [] (by simp)

/-! ## `repairTop20` lemmas -/

theorem deriveBranch_id_of_noArr (d : Dict)
    (h : ∀ t30, dget d "top_30" ≠ some (J.arr t30)) :
    deriveBranch d = .ok d := by
  unfold deriveBranch
  cases hg : dget d "top_30" with
  | none => rfl
  | some w =>
      cases w with
      | arr t30 => exact absurd hg (h t30)
      | null => rfl
      | bool b => rfl
      | num n => rfl
      | numRaw l => rfl
      | str s => rfl
      | obj kvs => rfl

theorem deriveBranch_arr (d : Dict) (t30 : List J)
    (h30 : dget d "top_30" = some (J.arr t30)) (hn : notesOk d) :
    ∃ e, deriveBranch d = .ok e ∧
      dget e "top_20_questions" = some (J.arr (derive t30)) ∧
      (∃ l, dget e "notes" = some (J.arr (l ++ [J.str derivNote]))) ∧
      ∀ k, k ≠ "notes" → k ≠ "top_20_questions" → dget e k = dget d k := by
  have hn' : notesOk (dset d "top_20_questions" (J.arr (derive t30))) := by
    rcases hn with hn | ⟨l, hl⟩
    · exact Or.inl (by rw [dget_dset_ne _ _ _ _ (by decide)]; exact hn)
    · exact Or.inr ⟨l, by rw [dget_dset_ne _ _ _ _ (by decide)]; exact hl⟩
  obtain ⟨e, he⟩ := appendNote_ok_of_notesOk _ derivNote hn'
  refine ⟨e, ?_, ?_, appendNote_notes _ _ _ he, ?_⟩
  · simp only [deriveBranch, h30]
    exact he
  · rw [appendNote_pres _ _ _ he "top_20_questions" (by decide)]
    exact dget_dset_self _ _ _
  · intro k hk1 hk2
    rw [appendNote_pres _ _ _ he k hk1, dget_dset_ne _ _ _ _ (Ne.symm hk2)]

theorem deriveBranch_pres (d e : Dict) (h : deriveBranch d = .ok e) :
    ∀ k, k ≠ "top_20_questions" → k ≠ "notes" → dget e k = dget d k := by
  unfold deriveBranch at h
  split at h
  case h_1 t30 heq =>
      intro k hk1 hk2
      rw [appendNote_pres _ _ _ h k hk2, dget_dset_ne _ _ _ _ (Ne.symm hk1)]
  case h_2 =>
      simp only [Except.ok.injEq] at h
      subst h
      intro k _ _
      rfl

theorem deriveBranch_notesArr (d e : Dict) (h : deriveBranch d = .ok e)
    (hn : notesArr d) : notesArr e := by
  unfold deriveBranch at h
  split at h
  case h_1 t30 heq => exact appendNote_notesArr _ _ _ h
  case h_2 =>
      simp only [Except.ok.injEq] at h
      subst h
      exact hn

theorem repairTop20_pres (b e : Dict) (h : repairTop20 b = .ok e) :
    ∀ k, k ≠ "top_20_questions" → k ≠ "notes" → dget e k = dget b k := by
  unfold repairTop20 at h
  split at h
  case h_1 xs heq =>
      split at h
      · simp only [Except.ok.injEq] at h
        subst h
        intro k hk1 _
        rw [dget_dset_ne _ _ _ _ (Ne.symm hk1)]
      · split at h
        · exact deriveBranch_pres _ _ h
        · simp only [Except.ok.injEq] at h
          subst h
          intro k _ _
          rfl
  case h_2 w heq hne =>
      simp only [Except.ok.injEq] at h
      subst h
      intro k _ _
      rfl
  case h_3 heq => exact deriveBranch_pres _ _ h

theorem repairTop20_notesArr (b e : Dict) (h : repairTop20 b = .ok e)
    (hn : notesArr b) : notesArr e := by
  unfold repairTop20 at h
  split at h
  case h_1 xs heq =>
      split at h
      · simp only [Except.ok.injEq] at h
        subst h
        obtain ⟨l, hl⟩ := hn
        exact ⟨l, by rw [dget_dset_ne _ _ _ _ (by decide)]; exact hl⟩
      · split at h
        · exact deriveBranch_notesArr _ _ h hn
        · simp only [Except.ok.injEq] at h
          subst h
          exact hn
  case h_2 w heq hne =>
      simp only [Except.ok.injEq] at h
      subst h
      exact hn
  case h_3 heq => exact deriveBranch_notesArr _ _ h hn

theorem repairTop20_char (b e : Dict) (h : repairTop20 b = .ok e) :
    (∀ xs, dget e "top_20_questions" = some (J.arr xs) → xs.length ≤ 20 ∧
      (xs.length < 20 →
        (∃ t30, dget e "top_30" = some (J.arr t30) ∧ xs = derive t30 ∧ notesArr e) ∨
        (∀ t30, dget e "top_30" ≠ some (J.arr t30)))) ∧
    (dget e "top_20_questions" = none → ∀ t30, dget e "top_30" ≠ some (J.arr t30)) := by
  unfold repairTop20 at h
  split at h
  case h_1 xs heq =>
      split at h
      case isTrue hgt =>
          simp only [Except.ok.injEq] at h
          subst h
          have he20 : dget (dset b "top_20_questions" (J.arr (xs.take 20)))
              "top_20_questions" = some (J.arr (xs.take 20)) := dget_dset_self _ _ _
          constructor
          · intro ys hy
            rw [he20] at hy
            simp only [Option.some.injEq, J.arr.injEq] at hy
            subst hy
            refine ⟨by simp [List.length_take], fun hlt => ?_⟩
            rw [List.length_take] at hlt
            omega
          · intro hnone
            rw [he20] at hnone
            exact absurd hnone (by simp)
      case isFalse hle =>
          split at h
          case isTrue hlt =>
              unfold deriveBranch at h
              split at h
              case h_1 t30 heq30 =>
                  have he20 : dget e "top_20_questions"
                      = some (J.arr (derive t30)) := by
                    rw [appendNote_pres _ _ _ h "top_20_questions" (by decide)]
                    exact dget_dset_self _ _ _
                  have he30 : dget e "top_30" = some (J.arr t30) := by
                    rw [appendNote_pres _ _ _ h "top_30" (by decide),
                      dget_dset_ne _ _ _ _ (by decide)]
                    exact heq30
                  constructor
                  · intro ys hy
                    rw [he20] at hy
                    simp only [Option.some.injEq, J.arr.injEq] at hy
                    subst hy
                    exact ⟨derive_le t30, fun _ =>
                      Or.inl ⟨t30, he30, rfl, appendNote_notesArr _ _ _ h⟩⟩
                  · intro hnone
                    rw [he20] at hnone
                    exact absurd hnone (by simp)
              case h_2 hno =>
                  simp only [Except.ok.injEq] at h
                  subst h
                  constructor
                  · intro ys hy
                    rw [heq] at hy
                    simp only [Option.some.injEq, J.arr.injEq] at hy
                    subst hy
                    exact ⟨by omega, fun _ => Or.inr (fun t30 ht => hno _ ht)⟩
                  · intro hnone
                    rw [heq] at hnone
                    exact absurd hnone (by simp)
          case isFalse hge =>
              simp only [Except.ok.injEq] at h
              subst h
              constructor
              · intro ys hy
                rw [heq] at hy
                simp only [Option.some.injEq, J.arr.injEq] at hy
                subst hy
                exact ⟨by omega, fun hlt => absurd hlt (by omega)⟩
              · intro hnone
                rw [heq] at hnone
                exact absurd hnone (by simp)
  case h_2 w heq hne =>
      simp only [Except.ok.injEq] at h
      subst h
      constructor
      · intro ys hy
        rw [hne] at hy
        simp only [Option.some.injEq] at hy
        exact (heq ys hy).elim
      · intro hnone
        rw [hne] at hnone
        exact absurd hnone (by simp)
  case h_3 heq =>
      unfold deriveBranch at h
      split at h
      case h_1 t30 heq30 =>
          have he20 : dget e "top_20_questions" = some (J.arr (derive t30)) := by
            rw [appendNote_pres _ _ _ h "top_20_questions" (by decide)]
            exact dget_dset_self _ _ _
          have he30 : dget e "top_30" = some (J.arr t30) := by
            rw [appendNote_pres _ _ _ h "top_30" (by decide),
              dget_dset_ne _ _ _ _ (by decide)]
            exact heq30
          constructor
          · intro ys hy
            rw [he20] at hy
            simp only [Option.some.injEq, J.arr.injEq] at hy
            subst hy
            exact ⟨derive_le t30, fun _ =>
              Or.inl ⟨t30, he30, rfl, appendNote_notesArr _ _ _ h⟩⟩
          · intro hnone
            rw [he20] at hnone
            exact absurd hnone (by simp)
      case h_2 hno =>
          simp only [Except.ok.injEq] at h
          subst h
          exact ⟨fun ys hy => absurd hy (by rw [heq]; simp),
            fun _ t30 ht => hno _ ht⟩

theorem repairTop20_again (e : Dict)
    (h1 : ∀ xs, dget e "top_20_questions" = some (J.arr xs) → xs.length ≤ 20 ∧
      (xs.length < 20 →
        (∃ t30, dget e "top_30" = some (J.arr t30) ∧ xs = derive t30 ∧ notesArr e) ∨
        (∀ t30, dget e "top_30" ≠ some (J.arr t30))))
    (h2 : dget e "top_20_questions" = none → ∀ t30, dget e "top_30" ≠ some (J.arr t30)) :
    ∃ e', repairTop20 e = .ok e' ∧
      dget e' "top_20_questions" = dget e "top_20_questions" ∧
      ∀ k, k ≠ "notes" → k ≠ "top_20_questions" → dget e' k = dget e k := by
  cases he : dget e "top_20_questions" with
  | none =>
      refine ⟨e, ?_, he, fun _ _ _ => rfl⟩
      simp only [repairTop20, he]
      exact deriveBranch_id_of_noArr e (h2 he)
  | some w =>
      cases w with
      | arr xs =>
          obtain ⟨hle, hrest⟩ := h1 xs he
          by_cases hlt : xs.length < 20
          · rcases hrest hlt with ⟨t30, ht30, hxs, hnA⟩ | hno
            · obtain ⟨e', hE, h20', hnotes', pres'⟩ :=
                deriveBranch_arr e t30 ht30 (Or.inr hnA)
              refine ⟨e', ?_, ?_, pres'⟩
              · simp only [repairTop20, he]
                rw [if_neg (show ¬ (20 < xs.length) by omega), if_pos hlt]
                exact hE
              · rw [h20', hxs]
            · refine ⟨e, ?_, he, fun _ _ _ => rfl⟩
              simp only [repairTop20, he]
              rw [if_neg (show ¬ (20 < xs.length) by omega), if_pos hlt]
              exact deriveBranch_id_of_noArr e hno
          · refine ⟨e, ?_, he, fun _ _ _ => rfl⟩
            simp only [repairTop20, he]
            rw [if_neg (show ¬ (20 < xs.length) by omega), if_neg hlt]
      | null => exact ⟨e, by simp [repairTop20, he], he, fun _ _ _ => rfl⟩
      | bool c => exact ⟨e, by simp [repairTop20, he], he, fun _ _ _ => rfl⟩
      | num n => exact ⟨e, by simp [repairTop20, he], he, fun _ _ _ => rfl⟩
      | numRaw l => exact ⟨e, by simp [repairTop20, he], he, fun _ _ _ => rfl⟩
      | str st => exact ⟨e, by simp [repairTop20, he], he, fun _ _ _ => rfl⟩
      | obj kvs => exact ⟨e, by simp [repairTop20, he], he, fun _ _ _ => rfl⟩

/-! ## Composing the three repair stages -/

theorem agent3Repair_split (a1 a2 dt : String) (rs : List String) (d e : Dict)
    (h : agent3Repair a1 a2 dt rs d = .ok e) :
    ∃ a b, repairInput a1 a2 dt rs d = .ok a ∧ repairTop30 a = .ok b ∧
      repairTop20 b = .ok e := by
  unfold agent3Repair at h
  cases hA : repairInput a1 a2 dt rs d with
  | error err =>
      rw [hA] at h
      simp only [bind, Except.bind] at h
      exact absurd h (by simp)
  | ok a =>
      rw [hA] at h
      simp only [bind, Except.bind] at h
      cases hB : repairTop30 a with
      | error err =>
          rw [hB] at h
          exact absurd (show Except.error err = Except.ok e from h) (by simp)
      | ok b =>
          rw [hB] at h
          exact ⟨a, b, rfl, hB, show repairTop20 b = Except.ok e from h⟩

theorem agent3Repair_build (a1 a2 dt : String) (rs : List String) (d a b e : Dict)
    (h1 : repairInput a1 a2 dt rs d = .ok a) (h2 : repairTop30 a = .ok b)
    (h3 : repairTop20 b = .ok e) : agent3Repair a1 a2 dt rs d = .ok e := by
  unfold agent3Repair
  rw [h1]
  simp only [bind, Except.bind]
  rw [h2]
  exact h3

theorem agent3Repair_second (a1 a2 dt : String) (rs : List String) (d e : Dict)
    (h : agent3Repair a1 a2 dt rs d = .ok e) :
    ∃ e', agent3Repair a1 a2 dt rs e = .ok e' ∧
      dget e' "input" = dget e "input" ∧
      dget e' "top_30" = dget e "top_30" ∧
      dget e' "top_20_questions" = dget e "top_20_questions" := by
  obtain ⟨a, b, hA, hB, hC⟩ := agent3Repair_split a1 a2 dt rs d e h
  obtain ⟨presA, kvs, hkvs, k1, k2, k3, k4⟩ := repairInput_ok_char _ _ _ _ _ _ hA
  have hBinp : dget b "input" = some (J.obj kvs) := by
    rw [repairTop30_pres _ _ hB "input" (by decide) (by decide)]
    exact hkvs
  have hEinp : dget e "input" = some (J.obj kvs) := by
    rw [repairTop20_pres _ _ hC "input" (by decide) (by decide)]
    exact hBinp
  obtain ⟨hB1, hB2⟩ := repairTop30_char _ _ hB
  have hE30eq : dget e "top_30" = dget b "top_30" :=
    repairTop20_pres _ _ hC "top_30" (by decide) (by decide)
  have hE1 : ∀ xs, dget e "top_30" = some (J.arr xs) →
      xs.length ≤ 30 ∧ (xs.length < 30 → notesArr e) := by
    intro xs hx
    rw [hE30eq] at hx
    obtain ⟨l1, l2⟩ := hB1 xs hx
    exact ⟨l1, fun hlt => repairTop20_notesArr _ _ hC (l2 hlt)⟩
  have hE2 : dget e "top_30" = none → notesArr e := by
    intro hx
    rw [hE30eq] at hx
    exact repairTop20_notesArr _ _ hC (hB2 hx)
  have hIdInp : repairInput a1 a2 dt rs e = .ok e :=
    repairInput_id _ _ _ _ _ kvs hEinp k1 k2 k3 k4
  obtain ⟨f, hF, presF, notesF⟩ := repairTop30_again e hE1 hE2
  obtain ⟨hC1, hC2⟩ := repairTop20_char _ _ hC
  have hf20 : dget f "top_20_questions" = dget e "top_20_questions" :=
    presF _ (by decide)
  have hf30 : dget f "top_30" = dget e "top_30" := presF _ (by decide)
  have hF1 : ∀ xs, dget f "top_20_questions" = some (J.arr xs) → xs.length ≤ 20 ∧
      (xs.length < 20 →
        (∃ t30, dget f "top_30" = some (J.arr t30) ∧ xs = derive t30 ∧ notesArr f) ∨
        (∀ t30, dget f "top_30" ≠ some (J.arr t30))) := by
    intro xs hx
    rw [hf20] at hx
    obtain ⟨l1, l2⟩ := hC1 xs hx
    refine ⟨l1, fun hlt => ?_⟩
    rcases l2 hlt with ⟨t30, ht, hxs, hn⟩ | hno
    · exact Or.inl ⟨t30, by rw [hf30]; exact ht, hxs, notesF hn⟩
    · exact Or.inr (fun t30 ht => hno t30 (by rw [← hf30]; exact ht))
  have hF2 : dget f "top_20_questions" = none →
      ∀ t30, dget f "top_30" ≠ some (J.arr t30) := by
    intro hx t30 ht
    rw [hf20] at hx
    rw [hf30] at ht
    exact hC2 hx t30 ht
  obtain ⟨e2, hE2, h20eq, presE2⟩ := repairTop20_again f hF1 hF2
  refine ⟨e2, agent3Repair_build a1 a2 dt rs e e f e2 hIdInp hF hE2, ?_, ?_, ?_⟩
  · rw [presE2 "input" (by decide) (by decide), presF "input" (by decide)]
  · rw [presE2 "top_30" (by decide) (by decide), hf30]
  · rw [h20eq, hf20]

/-! ## Shortlist derivation through the whole repair -/

theorem repairTop20_derives (b : Dict) (xs t30 : List J)
    (hb20 : dget b "top_20_questions" = some (J.arr xs)) (hlen : xs.length < 20)
    (hb30 : dget b "top_30" = some (J.arr t30)) (hnb : notesOk b) :
    ∃ e, repairTop20 b = .ok e ∧
      dget e "top_20_questions" = some (J.arr (derive t30)) ∧
      ∃ l, dget e "notes" = some (J.arr (l ++ [J.str derivNote])) := by
  obtain ⟨e, hE, h1, h2, _⟩ := deriveBranch_arr b t30 hb30 hnb
  refine ⟨e, ?_, h1, h2⟩
  simp only [repairTop20, hb20]
  rw [if_neg (show ¬ (20 < xs.length) by omega), if_pos hlen]
  exact hE

theorem agent3Repair_derives (a1 a2 dt : String) (rs : List String) (d : Dict)
    (xs t30 : List J) (hin : inputOk d) (hn : notesOk d)
    (h20 : dget d "top_20_questions" = some (J.arr xs)) (hlen : xs.length < 20)
    (h30 : dget d "top_30" = some (J.arr t30)) (h30len : t30.length ≤ 30) :
    ∃ e, agent3Repair a1 a2 dt rs d = .ok e ∧
      dget e "top_20_questions" = some (J.arr ((collectTruthyQuestions t30).take 20)) ∧
      ∃ l, dget e "notes" = some (J.arr (l ++ [J.str derivNote])) := by
  obtain ⟨a, hA⟩ := repairInput_ok_of a1 a2 dt rs d hin
  have presA := (repairInput_ok_char _ _ _ _ _ _ hA).1
  have ha20 : dget a "top_20_questions" = some (J.arr xs) := by
    rw [presA _ (by decide)]
    exact h20
  have ha30 : dget a "top_30" = some (J.arr t30) := by
    rw [presA _ (by decide)]
    exact h30
  have hna : notesOk a := by
    rcases hn with hn | ⟨l, hl⟩
    · exact Or.inl (by rw [presA _ (by decide)]; exact hn)
    · exact Or.inr ⟨l, by rw [presA _ (by decide)]; exact hl⟩
  by_cases hlen30 : t30.length < 30
  · obtain ⟨b, hb⟩ := appendNote_ok_of_notesOk a (countNote t30.length) hna
    have hB : repairTop30 a = .ok b := by
      simp only [repairTop30, ha30]
      rw [if_neg (show ¬ (30 < t30.length) by omega), if_pos hlen30]
      exact hb
    have hb20 : dget b "top_20_questions" = some (J.arr xs) := by
      rw [appendNote_pres _ _ _ hb _ (by decide)]
      exact ha20
    have hb30 : dget b "top_30" = some (J.arr t30) := by
      rw [appendNote_pres _ _ _ hb _ (by decide)]
      exact ha30
    obtain ⟨e, hC, he20, henotes⟩ := repairTop20_derives b xs t30 hb20 hlen hb30
      (Or.inr (appendNote_notesArr _ _ _ hb))
    refine ⟨e, agent3Repair_build _ _ _ _ _ _ _ _ hA hB hC, ?_, henotes⟩
    rw [he20, derive_eq_take]
  · have hB : repairTop30 a = .ok a := by
      simp only [repairTop30, ha30]
      rw [if_neg (show ¬ (30 < t30.length) by omega), if_neg hlen30]
    obtain ⟨e, hC, he20, henotes⟩ := repairTop20_derives a xs t30 ha20 hlen ha30 hna
    refine ⟨e, agent3Repair_build _ _ _ _ _ _ _ _ hA hB hC, ?_, henotes⟩
    rw [he20, derive_eq_take]

/-! ## Strip idempotence -/

theorem dropWhile_self_idem (p : Char → Bool) (l : List Char) :
    (l.dropWhile p).dropWhile p = l.dropWhile p := by
  induction l with
  | nil => simp
  | cons c t ih =>
      by_cases hc : p c
      · simp [List.dropWhile_cons, hc, ih]
      · simp [List.dropWhile_cons, hc]

theorem dropWhile_append_ne (p : Char → Bool) (l1 l2 : List Char)
    (h : l1.dropWhile p ≠ []) :
    (l1 ++ l2).dropWhile p = l1.dropWhile p ++ l2 := by
  induction l1 with
  | nil => simp at h
  | cons c t ih =>
      by_cases hc : p c
      · simp only [List.dropWhile_cons, hc, if_true, List.cons_append]
        simp only [List.dropWhile_cons, hc, if_true] at h
        exact ih h
      · simp [List.dropWhile_cons, hc]

theorem dropWhile_append_nil (p : Char → Bool) (l1 l2 : List Char)
    (h : l1.dropWhile p = []) :
    (l1 ++ l2).dropWhile p = l2.dropWhile p := by
  induction l1 with
  | nil => simp
  | cons c t ih =>
      by_cases hc : p c
      · simp only [List.dropWhile_cons, hc, if_true] at h
        simp only [List.cons_append, List.dropWhile_cons, hc, if_true]
        exact ih h
      · simp [List.dropWhile_cons, hc] at h

theorem stripStart_head_false (c : Char) (t : List Char)
    (h : stripStart (c :: t) = c :: t) : isPyWs c = false := by
  by_contra hc
  simp only [Bool.not_eq_false] at hc
  unfold stripStart at h
  rw [List.dropWhile_cons, if_pos hc] at h
  have h1 : (List.dropWhile isPyWs t).length ≤ t.length :=
    (List.dropWhile_sublist (p := isPyWs) (l := t)).length_le
  have h2 := congrArg List.length h
  simp at h2
  omega

theorem stripEnd_idem (l : List Char) : stripEnd (stripEnd l) = stripEnd l := by
  unfold stripEnd
  rw [List.reverse_reverse, dropWhile_self_idem]

theorem stripStart_stripEnd (l : List Char) (h : stripStart l = l) :
    stripStart (stripEnd l) = stripEnd l := by
  cases l with
  | nil => rfl
  | cons c t =>
      have hc : isPyWs c = false := stripStart_head_false c t h
      unfold stripEnd
      rw [List.reverse_cons]
      cases hd : (t.reverse).dropWhile isPyWs with
      | nil =>
          rw [dropWhile_append_nil _ _ _ hd]
          simp [stripStart, List.dropWhile_cons, hc]
      | cons y ys =>
          rw [dropWhile_append_ne _ _ _ (by rw [hd]; simp), hd,
            List.reverse_append]
          simp [stripStart, List.dropWhile_cons, hc]

theorem pyStripL_idem (l : List Char) : pyStripL (pyStripL l) = pyStripL l := by
  unfold pyStripL
  rw [stripStart_stripEnd (stripStart l) (dropWhile_self_idem isPyWs l),
    stripEnd_idem]

theorem pyStrip_idem (s : String) : pyStrip (pyStrip s) = pyStrip s := by
  unfold pyStrip
  exact congrArg String.mk (pyStripL_idem s.data)

/-! ## First-occurrence deduplication -/

theorem dedupFirstGo_eq (seen : List String) (l : List String) :
    dedupFirstGo seen l = specDedup (l.filter fun x => !decide (x ∈ seen)) := by
  induction l generalizing seen with
  | nil => simp [dedupFirstGo, specDedup]
  | cons r rest ih =>
      by_cases hr : r ∈ seen
      · have hg : (!decide (r ∈ seen)) = false := by simp [hr]
        simp only [dedupFirstGo, if_pos hr, List.filter_cons, hg,
          Bool.false_eq_true, if_neg]
        exact ih seen
      · have hff : (List.filter (fun x => !decide (x ∈ seen)) rest).filter
            (fun x => decide (x ≠ r)) = rest.filter (fun x => !decide (x ∈ r :: seen)) := by
          rw [List.filter_filter]
          apply List.filter_congr
          intro x _
          by_cases hxr : x = r
          · subst hxr
            simp
          · by_cases hxs : x ∈ seen <;> simp [List.mem_cons, hxr, hxs]
        have hg : (!decide (r ∈ seen)) = true := by simp [hr]
        simp only [dedupFirstGo, if_neg hr, List.filter_cons, hg, if_pos]
        simp only [specDedup]
        rw [ih (r :: seen), ← hff]

theorem specDedup_strong (n : Nat) :
    ∀ l : List String, l.length ≤ n →
      (∀ x ∈ specDedup l, x ∈ l) ∧ (specDedup l).Nodup := by
  induction n with
  | zero =>
      intro l hl
      have : l = [] := List.eq_nil_of_length_eq_zero (by omega)
      subst this
      simp [specDedup]
  | succ n ih =>
      intro l hl
      cases l with
      | nil => simp [specDedup]
      | cons x xs =>
          have hfl : (xs.filter (· ≠ x)).length ≤ n := by
            have := List.length_filter_le (· ≠ x) xs
            simp at hl
            omega
          obtain ⟨hsub, hnd⟩ := ih (xs.filter (· ≠ x)) hfl
          constructor
          · intro y hy
            rw [specDedup] at hy
            rcases List.mem_cons.mp hy with hy | hy
            · simp [hy]
            · have := hsub y hy
              exact List.mem_cons_of_mem x (List.mem_of_mem_filter this)
          · rw [specDedup]
            refine List.nodup_cons.mpr ⟨?_, hnd⟩
            intro hx
            have := hsub x hx
            have := List.of_mem_filter this
            simp at this

theorem specDedup_sub (l : List String) : ∀ x ∈ specDedup l, x ∈ l :=
  (specDedup_strong l.length l le_rfl).1

theorem specDedup_nodup (l : List String) : (specDedup l).Nodup :=
  (specDedup_strong l.length l le_rfl).2

theorem parseRounds_eq_specDedup (a : Option (List String)) (t : Option String) :
    parseRounds a t = specDedup (parseRoundsPre a t) := by
  unfold parseRounds
  rw [dedupFirstGo_eq [] (parseRoundsPre a t)]
  congr 1
  apply List.filter_eq_self.mpr
  intro x _
  simp

theorem parseRoundsPre_elems (a : Option (List String)) (t : Option String) :
    ∀ r ∈ parseRoundsPre a t, r ≠ "" ∧ pyStrip r = r := by
  intro r hr
  unfold parseRoundsPre at hr
  rcases List.mem_append.mp hr with hr | hr
  · revert hr
    cases a with
    | none => simp
    | some args =>
        intro hr
        obtain ⟨x, _, hx⟩ := List.mem_filterMap.mp hr
        by_cases hxe : pyStrip x = ""
        · rw [if_pos hxe] at hx
          exact absurd hx (by simp)
        · rw [if_neg hxe] at hx
          simp only [Option.some.injEq] at hx
          subst hx
          exact ⟨hxe, pyStrip_idem x⟩
  · revert hr
    cases t with
    | none => simp
    | some txt =>
        intro hr0
        have hr1 : r ∈ (if txt = "" then ([] : List String)
            else ((splitOnChar '\n' (replaceCRwithLF txt.data)).flatMap
              (fun part => splitOnChar ';' part)).filterMap fun p =>
                if (pyStripL p).isEmpty then none
                else some (⟨pyStripL p⟩ : String)) := hr0
        by_cases hte : txt = ""
        · rw [if_pos hte] at hr1
          exact absurd hr1 (by simp)
        · rw [if_neg hte] at hr1
          obtain ⟨p, _, hp⟩ := List.mem_filterMap.mp hr1
          by_cases hpe : (pyStripL p).isEmpty
          · rw [if_pos hpe] at hp
            exact absurd hp (by simp)
          · rw [if_neg hpe] at hp
            simp only [Option.some.injEq] at hp
            subst hp
            constructor
            · intro hc
              have : pyStripL p = [] := congrArg String.data hc
              simp [List.isEmpty_iff] at hpe
              exact hpe this
            · unfold pyStrip
              exact congrArg String.mk (pyStripL_idem p)

/-! ## Round-normalization lemmas (spec: Stage 3 delimiter-and-whitespace input) -/

theorem rsplitDelims_chars (cs : List Char) :
    ∀ g ∈ rsplitDelims cs, ∀ c ∈ g, c ∈ cs ∧ isA3Delim c = false := by
  induction cs with
  | nil =>
      intro g hg c hc
      simp only [rsplitDelims, List.mem_singleton] at hg
      subst hg
      simp at hc
  | cons c0 cs ih =>
      intro g hg c hc
      by_cases hd : isA3Delim c0
      · simp only [rsplitDelims, if_pos hd] at hg
        by_cases hd2 : ((cs.head?).map isA3Delim).getD false
        · rw [if_pos hd2] at hg
          obtain ⟨h1, h2⟩ := ih g hg c hc
          exact ⟨List.mem_cons_of_mem _ h1, h2⟩
        · rw [if_neg hd2] at hg
          rcases List.mem_cons.mp hg with hg | hg
          · subst hg; simp at hc
          · obtain ⟨h1, h2⟩ := ih g hg c hc
            exact ⟨List.mem_cons_of_mem _ h1, h2⟩
      · simp only [rsplitDelims, if_neg hd] at hg
        split at hg
        next g0 gs hr =>
            rcases List.mem_cons.mp hg with hg | hg
            · subst hg
              rcases List.mem_cons.mp hc with hc | hc
              · subst hc
                exact ⟨List.mem_cons_self _ _, by simpa using hd⟩
              · obtain ⟨h1, h2⟩ :=
                  ih g0 (by rw [hr]; exact List.mem_cons_self _ _) c hc
                exact ⟨List.mem_cons_of_mem _ h1, h2⟩
            · obtain ⟨h1, h2⟩ :=
                ih g (by rw [hr]; exact List.mem_cons_of_mem _ hg) c hc
              exact ⟨List.mem_cons_of_mem _ h1, h2⟩
        next hr =>
            simp only [List.mem_singleton] at hg
            subst hg
            simp only [List.mem_singleton] at hc
            subst hc
            exact ⟨List.mem_cons_self _ _, by simpa using hd⟩

theorem pyStripL_nil_of_allWs (g : List Char) (h : ∀ c ∈ g, isPyWs c = true) :
    pyStripL g = [] := by
  unfold pyStripL stripStart
  rw [List.dropWhile_eq_nil_iff.mpr h]
  rfl

/-! ## Recovery-failure lemmas -/

theorem mem_pyStripL (c : Char) (cs : List Char) (h : c ∈ pyStripL cs) :
    c ∈ cs := by
  unfold pyStripL stripEnd stripStart at h
  rw [List.mem_reverse] at h
  have h2 := (List.dropWhile_sublist (p := isPyWs)).subset h
  rw [List.mem_reverse] at h2
  exact (List.dropWhile_sublist (p := isPyWs)).subset h2

theorem tryFenceAt_none (cs : List Char) (h : '{' ∉ cs) : tryFenceAt cs = none := by
  unfold tryFenceAt
  by_cases hs : startsWithCI "```json".data cs
  · rw [if_pos hs]
    cases hm : (cs.drop 7).dropWhile isPyWs with
    | nil => rfl
    | cons c rest =>
        by_cases hc : c = '{'
        · subst hc
          exfalso
          apply h
          have h1 : '{' ∈ (cs.drop 7).dropWhile isPyWs := by
            rw [hm]; exact List.mem_cons_self _ _
          have h2 := (List.dropWhile_sublist (p := isPyWs)).subset h1
          exact (List.drop_sublist 7 cs).subset h2
        · simp [hc]
  · rw [if_neg hs]

theorem fencedSearch_none (cs : List Char) (h : '{' ∉ cs) :
    fencedSearch cs = none := by
  induction cs with
  | nil => rfl
  | cons c rest ih =>
      unfold fencedSearch
      rw [tryFenceAt_none _ h]
      exact ih (fun hm => h (List.mem_cons_of_mem _ hm))

theorem findIdx?_none_of (p : Char → Bool) (l : List Char)
    (h : ∀ x ∈ l, p x = false) : l.findIdx? p = none := by
  induction l with
  | nil => simp
  | cons c rest ih =>
      rw [List.findIdx?_cons, h c (List.mem_cons_self _ _)]
      simp [ih (fun x hx => h x (List.mem_cons_of_mem _ hx))]

theorem braceBlock_none (cs : List Char) (h : '{' ∉ cs) : braceBlock cs = none := by
  unfold braceBlock
  rw [findIdx?_none_of (· = '{') cs (fun x hx => by
    simp only [decide_eq_false_iff_not]
    intro hxe
    subst hxe
    exact h hx)]

theorem extractJsonObjectA3_none (t : String) (h1 : '{' ∉ t.data)
    (h3 : jsonParse (pyStrip t) = none) : extractJsonObjectA3 t = none := by
  unfold extractJsonObjectA3
  by_cases ht : t = ""
  · rw [if_pos ht]
  · rw [if_neg ht]
    have hmem : '{' ∉ (pyStrip t).data := fun hm => h1 (mem_pyStripL _ _ hm)
    rw [fencedSearch_none _ hmem, h3, braceBlock_none _ hmem]

/-! ## The claims -/

/-- C1: the claim states that for a resume-typed record with no override the
company/role resolution never returns a past-employer name from the record's
entities as `company_name`.  The code violates this (a code bug: it
contradicts the docstring of `guess_company_and_role`, "For resume: do NOT
assume hiring company from work history"): for a resume whose entities group
`Companies` holds the past employer `Acme Corp`, `run_agent2` with no
override resolves `company_name = "Acme Corp"` — a name from the record's
entities — and proceeds to invoke the research agent on it. -/
theorem C1_company_from_resume_guard_code_bug :
    runAgent2 ⟨"", "resume", "", [], [("Companies", ["Acme Corp"])], ""⟩ none none
      = .invoke "Acme Corp" none "resume" ∧
    "Acme Corp" ∈ (([("Companies", ["Acme Corp"])] :
        List (String × List String)).map Prod.snd).flatten :=
  ⟨by decide, by decide⟩

/-- C2 counterexample: the repair step is not idempotent as claimed — on a
recovered QASet with an empty `top_30` list and an empty `top_20_questions`
list, a second application re-appends the short-count and derivation notes,
so repairing twice differs from repairing once. -/
theorem C2_repair_twice_counterexample :
    (agent3Repair "a1.json" "a2.json" "resume" ["Recruiter Screen"]
        [("top_30", J.arr []), ("top_20_questions", J.arr [])]).bind
      (agent3Repair "a1.json" "a2.json" "resume" ["Recruiter Screen"])
    ≠ agent3Repair "a1.json" "a2.json" "resume" ["Recruiter Screen"]
        [("top_30", J.arr []), ("top_20_questions", J.arr [])] := by decide

/-- C2 (amended): applying the Stage 3 repair step twice yields the same
`input`, `top_30` and `top_20_questions` as applying it once — no further
truncation or derivation changes those fields, and the second application
cannot fail — but the `notes` list may grow: the `top_30` shortage note is
re-appended whenever `top_30` is a list of fewer than 30 items, and the
derivation note whenever `top_20_questions` is a list of fewer than 20
items while `top_30` is a list (over-length lists are truncated silently,
with no note). -/
theorem C2_repair_second_application_amended (a1 a2 dt : String)
    (rs : List String) (d e : Dict) (h : agent3Repair a1 a2 dt rs d = .ok e) :
    ∃ e', agent3Repair a1 a2 dt rs e = .ok e' ∧
      dget e' "input" = dget e "input" ∧
      dget e' "top_30" = dget e "top_30" ∧
      dget e' "top_20_questions" = dget e "top_20_questions" :=
  agent3Repair_second a1 a2 dt rs d e h

/-- C2 witness: the amended theorem applied to the empty recovered object. -/
theorem C2_repair_second_application_witness :
    agent3Repair "a1.json" "a2.json" "resume" ["R"] [] =
      .ok [("input", J.obj [("agent1_file", J.str "a1.json"),
              ("agent2_file", J.str "a2.json"), ("doc_type", J.str "resume"),
              ("rounds", J.arr [J.str "R"])]),
           ("notes", J.arr [J.str (countNote 0)])] ∧
    ∃ e', agent3Repair "a1.json" "a2.json" "resume" ["R"]
        [("input", J.obj [("agent1_file", J.str "a1.json"),
            ("agent2_file", J.str "a2.json"), ("doc_type", J.str "resume"),
            ("rounds", J.arr [J.str "R"])]),
         ("notes", J.arr [J.str (countNote 0)])] = .ok e' ∧
      dget e' "input" = dget [("input", J.obj [("agent1_file", J.str "a1.json"),
          ("agent2_file", J.str "a2.json"), ("doc_type", J.str "resume"),
          ("rounds", J.arr [J.str "R"])]),
          ("notes", J.arr [J.str (countNote 0)])] "input" ∧
      dget e' "top_30" = dget [("input", J.obj [("agent1_file", J.str "a1.json"),
          ("agent2_file", J.str "a2.json"), ("doc_type", J.str "resume"),
          ("rounds", J.arr [J.str "R"])]),
          ("notes", J.arr [J.str (countNote 0)])] "top_30" ∧
      dget e' "top_20_questions" = dget [("input", J.obj [("agent1_file", J.str "a1.json"),
          ("agent2_file", J.str "a2.json"), ("doc_type", J.str "resume"),
          ("rounds", J.arr [J.str "R"])]),
          ("notes", J.arr [J.str (countNote 0)])] "top_20_questions" :=
  ⟨by decide,
   C2_repair_second_application_amended "a1.json" "a2.json" "resume" ["R"] [] _
     (by decide)⟩

/-- C3 counterexample: an item whose `question` value is the empty string is
skipped by the code (its derivation loop requires a truthy value), so the
repaired shortlist is not "the question values of `top_30` with duplicates
skipped": the spec-side collection yields `[""]` while the repaired
`top_20_questions` stays `[]`. -/
theorem C3_shortlist_derivation_counterexample :
    specCollectQuestions [J.obj [("question", J.str "")]] = [J.str ""] ∧
    (agent3Repair "a1" "a2" "dt" []
        [("top_30", J.arr [J.obj [("question", J.str "")]]),
         ("top_20_questions", J.arr [])]).map (fun e => dget e "top_20_questions")
      = .ok (some (J.arr [])) ∧
    some (J.arr ([] : List J))
      ≠ some (J.arr (specCollectQuestions [J.obj [("question", J.str "")]])) :=
  ⟨by decide, by decide, by decide⟩

/-- C3 (amended): for a recovered QASet whose `top_20_questions` is a list of
fewer than 20 entries, whose `top_30` is a list of at most 30 items (so the
count repair does not truncate it first), and whose `input`/`notes` fields
are well-shaped, the repair replaces `top_20_questions` with the distinct
*truthy* `question` values of the dict items of `top_30` in order (items that
are not objects, have no `question`, or have a falsy one are skipped),
stopping at 20, and appends the auto-derivation note. -/
theorem C3_shortlist_derivation_amended (a1 a2 dt : String) (rs : List String)
    (d : Dict) (xs t30 : List J) (hin : inputOk d) (hn : notesOk d)
    (h20 : dget d "top_20_questions" = some (J.arr xs)) (hlen : xs.length < 20)
    (h30 : dget d "top_30" = some (J.arr t30)) (h30len : t30.length ≤ 30) :
    ∃ e, agent3Repair a1 a2 dt rs d = .ok e ∧
      dget e "top_20_questions"
        = some (J.arr ((collectTruthyQuestions t30).take 20)) ∧
      ∃ l, dget e "notes" = some (J.arr (l ++ [J.str derivNote])) :=
  agent3Repair_derives a1 a2 dt rs d xs t30 hin hn h20 hlen h30 h30len

/-- C3 witness: the claim's own instance — ten items with distinct non-empty
questions and an empty shortlist; the repaired `top_20_questions` is exactly
those ten questions in order. -/
theorem C3_shortlist_derivation_witness :
    (collectTruthyQuestions ((List.range 10).map
        (fun i => J.obj [("question", J.str s!"q{i}")]))).take 20
      = (List.range 10).map (fun i => J.str s!"q{i}") ∧
    ∃ e, agent3Repair "a1" "a2" "resume" ["R"]
        [("top_30", J.arr ((List.range 10).map
            (fun i => J.obj [("question", J.str s!"q{i}")]))),
         ("top_20_questions", J.arr [])] = .ok e ∧
      dget e "top_20_questions"
        = some (J.arr ((collectTruthyQuestions ((List.range 10).map
            (fun i => J.obj [("question", J.str s!"q{i}")]))).take 20)) ∧
      ∃ l, dget e "notes" = some (J.arr (l ++ [J.str derivNote])) :=
  ⟨by decide,
   C3_shortlist_derivation_amended "a1" "a2" "resume" ["R"] _ [] _
     (Or.inl (by decide)) (Or.inl (by decide)) (by decide) (by decide)
     (by decide) (by decide)⟩

/-- C4: confirmed.  Recovery on the exact text
`prefix \x60\x60\x60json \x7b"a":1\x7d \x60\x60\x60 suffix` returns the object
`\x7b"a": 1\x7d` (in both the Agent 1 and the Agent 3 variants of
`extract_json_object`); and in general, when the direct parse of the
fence-stripped text fails and the first `\x7b` precedes the last `\x7d`,
recovery parses exactly the substring bounded by that first `\x7b` and last
`\x7d`. -/
theorem C4_recovery_fenced_and_brace_block :
    extractJsonObjectA1 "prefix ```json \x7b\"a\":1\x7d ``` suffix"
      = some (J.obj [("a", J.num 1)]) ∧
    extractJsonObjectA3 "prefix ```json \x7b\"a\":1\x7d ``` suffix"
      = some (J.obj [("a", J.num 1)]) ∧
    ∀ (t : String) (i j : Nat), jsonParse (stripCodeFences t) = none →
      (stripCodeFences t).data.findIdx? (· = '{') = some i →
      lastIdxOf (stripCodeFences t).data '}' = some j →
      i < j →
      extractJsonObjectA1 t =
        jsonParse (pyStrip ⟨((stripCodeFences t).data.drop i).take (j - i + 1)⟩) := by
  refine ⟨by decide, by decide, ?_⟩
  intro t i j hdir hi hj hij
  unfold extractJsonObjectA1
  by_cases ht : t = ""
  · subst ht
    have h0 : (stripCodeFences "").data.findIdx? (· = '{') = none := by decide
    rw [h0] at hi
    exact absurd hi (by simp)
  · rw [if_neg ht]
    simp only [hdir]
    unfold braceBlock
    simp only [hi, hj, if_pos hij]

/-- C4 witness: the general brace-block clause applied to a concrete
fence-free text. -/
theorem C4_recovery_witness :
    jsonParse (stripCodeFences "xx \x7b\"b\":2\x7d yy") = none ∧
    (stripCodeFences "xx \x7b\"b\":2\x7d yy").data.findIdx? (· = '{') = some 3 ∧
    lastIdxOf (stripCodeFences "xx \x7b\"b\":2\x7d yy").data '}' = some 9 ∧
    extractJsonObjectA1 "xx \x7b\"b\":2\x7d yy" =
      jsonParse (pyStrip
        ⟨((stripCodeFences "xx \x7b\"b\":2\x7d yy").data.drop 3).take 7⟩) :=
  ⟨by decide, by decide, by decide,
   C4_recovery_fenced_and_brace_block.2.2 "xx \x7b\"b\":2\x7d yy" 3 9
     (by decide) (by decide) (by decide) (by decide)⟩

/-- C5: confirmed.  When no company can be resolved from the Stage 1 record
(the guessed company is falsy) and no override is given, `run_agent2`
short-circuits to the stub report — `company_name = "unknown"` with a
non-empty `notes` — and never reaches the research-agent invocation (the
`invoke` outcome), so zero search-collaborator calls are made. -/
theorem C5_stub_on_missing_company (a1 : Agent1Doc)
    (h : truthyS (guessCompanyAndRole a1).1 = false) :
    ∃ r, runAgent2 a1 none none = .stub r ∧ r.company_name = "unknown" ∧
      ∃ s, r.notes = some s ∧ s ≠ "" := by
  unfold runAgent2
  have h0 : (if truthyS (none : Option String) then (none : Option String)
      else (guessCompanyAndRole a1).1) = (guessCompanyAndRole a1).1 := by
    simp [truthyS]
  rw [h0]
  cases hg : (guessCompanyAndRole a1).1 with
  | none => exact ⟨_, rfl, rfl, _, rfl, by decide⟩
  | some c =>
      rw [hg] at h
      simp only [truthyS, ne_eq, decide_eq_false_iff_not, not_not] at h
      subst h
      exact ⟨_, rfl, rfl, _, rfl, by decide⟩

/-- C5 witness: a resume record with no entities and an empty preview. -/
theorem C5_stub_on_missing_company_witness :
    truthyS (guessCompanyAndRole ⟨"", "resume", "", [], [], ""⟩).1 = false ∧
    ∃ r, runAgent2 ⟨"", "resume", "", [], [], ""⟩ none none = .stub r ∧
      r.company_name = "unknown" ∧ ∃ s, r.notes = some s ∧ s ≠ "" :=
  ⟨by decide, C5_stub_on_missing_company _ (by decide)⟩

/-- C6 counterexample: the claim says a top-level name-like field is
preferred over the first-line heuristic; the code does the opposite — with
both a `name` field (`Bob Smith`) and a preview whose first line yields
`Jane Lee`, extraction returns `Jane Lee`. -/
theorem C6_name_priority_counterexample :
    dget [("raw_text_preview", J.str "Jane Lee | Data Analyst"),
        ("name", J.str "Bob Smith")] "name" = some (J.str "Bob Smith") ∧
    extractCandidateContact [("raw_text_preview", J.str "Jane Lee | Data Analyst"),
        ("name", J.str "Bob Smith")] = .ok (none, some "Jane Lee") :=
  ⟨by decide, by decide⟩

/-- C6 (amended): for any record whose `raw_text_preview` is a string, the
candidate name is the first-line heuristic (first line of the preview,
trimmed, text before `|`, trimmed) whenever that heuristic yields a
non-empty name; the top-level name-like fields (`name`, `candidate_name`,
`full_name`) are used only as a fallback when the heuristic yields nothing.
-/
theorem C6_name_resolution_amended (a1 : Dict) (preview : String)
    (hp : dget a1 "raw_text_preview" = some (J.str preview)) :
    (extractCandidateContact a1).map Prod.snd =
      .ok (if truthyS (nameHeuristic preview) then nameHeuristic preview
           else nameFromTop a1) := by
  simp only [extractCandidateContact, hp]
  have hraw : (if truthyJ (J.str preview) then J.str preview else J.str "")
      = J.str preview := by
    by_cases hpe : preview = "" <;> simp [truthyJ, hpe]
  rw [hraw]
  rfl

/-- C6 witness: the amended theorem at a record carrying both a preview and
a top-level name field; the heuristic name `Ada Smith` wins. -/
theorem C6_name_resolution_witness :
    dget [("raw_text_preview", J.str "Ada Smith | Engineer"),
        ("full_name", J.str "Someone Else")] "raw_text_preview"
      = some (J.str "Ada Smith | Engineer") ∧
    nameHeuristic "Ada Smith | Engineer" = some "Ada Smith" ∧
    (extractCandidateContact [("raw_text_preview", J.str "Ada Smith | Engineer"),
        ("full_name", J.str "Someone Else")]).map Prod.snd =
      .ok (if truthyS (nameHeuristic "Ada Smith | Engineer") then
          nameHeuristic "Ada Smith | Engineer"
        else nameFromTop [("raw_text_preview", J.str "Ada Smith | Engineer"),
          ("full_name", J.str "Someone Else")]) :=
  ⟨by decide, by decide,
   C6_name_resolution_amended _ "Ada Smith | Engineer" (by decide)⟩

/-- C7 counterexample: a comma does not delimit rounds at the CLI surface —
`_parse_rounds` keeps `"A, B"` as a single round. -/
theorem C7_comma_delimiter_counterexample :
    parseRounds none (some "A, B") ≠ ["A", "B"] := by decide

/-- C7 (amended): the runner CLI round parsing (`_parse_rounds`) splits only
on `;` and newline (with `\r` normalized to `\n`), so `"A, B"` stays one
round; it is Stage 3's internal normalization (`run_agent3`) that splits on
`;`, `,`, `|` and newline, so a comma-separated string does become several
rounds there. -/
theorem C7_round_delimiters_amended :
    parseRounds none (some "A, B") = ["A, B"] ∧
    parseRounds none (some "A; B\nC\rD") = ["A", "B", "C", "D"] ∧
    agent3Rounds "A, B" = ["A", "B"] ∧
    agent3Rounds "A; B\nC|D" = ["A", "B", "C", "D"] := by
  refine ⟨by decide, by decide, by decide, by decide⟩

/-- C8 counterexample: a brace-free text that is a bare JSON scalar is
parsed by `json.loads` and returned as data, not as the failure structure —
recovery on `"3"` yields the number 3. -/
theorem C8_brace_free_counterexample :
    ('{' ∉ "3".data ∧ '}' ∉ "3".data) ∧
    agent3RecoverStep "3" = .parsed (J.num 3) :=
  ⟨by decide, by decide⟩

/-- C8 (amended): for input text containing no `\x7b` and no `\x7d` that is
not itself parseable as JSON, recovery returns the failure structure whose
`raw_output` carries the input text unchanged (and never raises); brace-free
text that parses as a truthy JSON scalar or array is returned as data
instead. -/
theorem C8_failure_carries_text_amended (t : String) (h1 : '{' ∉ t.data)
    (_h2 : '}' ∉ t.data) (h3 : jsonParse (pyStrip t) = none) :
    agent3RecoverStep t = .failure "Failed to parse JSON from agent output." t := by
  unfold agent3RecoverStep
  rw [extractJsonObjectA3_none t h1 h3]

/-- C8 witness: plain prose with no braces. -/
theorem C8_failure_carries_text_witness :
    ('{' ∉ "no braces here".data ∧ '}' ∉ "no braces here".data ∧
      jsonParse (pyStrip "no braces here") = none) ∧
    agent3RecoverStep "no braces here"
      = .failure "Failed to parse JSON from agent output." "no braces here" :=
  ⟨⟨by decide, by decide, by decide⟩,
   C8_failure_carries_text_amended "no braces here" (by decide) (by decide)
     (by decide)⟩

/-- C9: confirmed.  `_parse_rounds` returns the first-occurrence
deduplication of the stripped round entries: the result has no duplicates,
and every element is non-empty with no leading or trailing whitespace. -/
theorem C9_parse_rounds_normalized (a : Option (List String)) (t : Option String) :
    parseRounds a t = specDedup (parseRoundsPre a t) ∧
    (parseRounds a t).Nodup ∧
    ∀ r ∈ parseRounds a t, r ≠ "" ∧ pyStrip r = r := by
  refine ⟨parseRounds_eq_specDedup a t, ?_, ?_⟩
  · rw [parseRounds_eq_specDedup]
    exact specDedup_nodup _
  · intro r hr
    rw [parseRounds_eq_specDedup] at hr
    exact parseRoundsPre_elems a t r (specDedup_sub _ r hr)

/-- C9 witness: the normalization applied to concrete flag and string inputs. -/
theorem C9_parse_rounds_witness :
    parseRounds (some ["A", "A"]) (some " B ;A")
      = specDedup (parseRoundsPre (some ["A", "A"]) (some " B ;A")) ∧
    (parseRounds (some ["A", "A"]) (some " B ;A")).Nodup ∧
    ("B" ∈ parseRounds (some ["A", "A"]) (some " B ;A") →
      "B" ≠ "" ∧ pyStrip "B" = "B") :=
  ⟨(C9_parse_rounds_normalized (some ["A", "A"]) (some " B ;A")).1,
   (C9_parse_rounds_normalized (some ["A", "A"]) (some " B ;A")).2.1,
   fun hm =>
     (C9_parse_rounds_normalized (some ["A", "A"]) (some " B ;A")).2.2 "B" hm⟩

/-- C10: confirmed.  When the interview-rounds string contains only Stage 3
delimiter characters and whitespace, its normalization is empty and
`run_agent3` silently substitutes the default round list. -/
theorem C10_default_rounds_on_empty (s : String)
    (h : ∀ c ∈ s.data, isA3Delim c = true ∨ isPyWs c = true) :
    agent3Rounds s = defaultRounds := by
  have hnil : ((rsplitDelims s.data).filterMap fun g =>
      if (pyStripL g).isEmpty then none
      else some ((⟨pyStripL g⟩ : String))) = [] := by
    apply List.filterMap_eq_nil_iff.mpr
    intro g hg
    have hws : ∀ c ∈ g, isPyWs c = true := by
      intro c hc
      obtain ⟨hmem, hnd⟩ := rsplitDelims_chars s.data g hg c hc
      rcases h c hmem with hmm | hmm
      · rw [hmm] at hnd
        cases hnd
      · exact hmm
    rw [pyStripL_nil_of_allWs g hws]
    rfl
  unfold agent3Rounds
  rw [hnil]
  rfl

/-- C10 witness: a string of delimiters and spaces. -/
theorem C10_default_rounds_witness :
    (∀ c ∈ (" ;, \n|" : String).data, isA3Delim c = true ∨ isPyWs c = true) ∧
    agent3Rounds " ;, \n|" = defaultRounds :=
  ⟨by decide, C10_default_rounds_on_empty _ (by decide)⟩

end InterviewPrep
